import Mathlib

/-!
Verification development for the ralfus orchestration server.

The TypeScript sources are shallowly embedded: strings are `List Char`,
JavaScript regular-expression tests are implemented as executable scanning
functions with the same match-existence semantics, the libSQL issue table is
a function from issue id to an optional row, and each job
(`runInitialPlanningJob`, `runClarificationJob`, `runImplementationJob`,
`runCodeReviewJob`, `runPrCommentJob`) is a pure function from its inputs and
an environment of collaborator results to a final store plus a trace of
collaborator effects.
-/

set_option maxRecDepth 16000

namespace Ralfus

abbrev Chars := List Char

/-! ## JavaScript character classes (`\s`, `\d`, `\w`, `.`) -/

/-- JavaScript `\s` (the members that can occur in the data handled here:
ASCII whitespace plus NBSP and BOM). -/
def isJsSpace (c : Char) : Bool :=
  c = ' ' || c = '\t' || c = '\n' || c = '\r' || c = '\x0b' || c = '\x0c' ||
  c = ' ' || c = '﻿'

/-- JavaScript `.` : any character except a line terminator. -/
def isRegexDot (c : Char) : Bool :=
  !(c = '\n' || c = '\r' || c = ' ' || c = ' ')

/-- JavaScript `\w` : `[A-Za-z0-9_]`. -/
def wordChar (c : Char) : Bool := c.isAlpha || c.isDigit || c = '_'

/-- `String.prototype.trim()` : strip leading whitespace. -/
def jsTrimStart (l : Chars) : Chars := l.dropWhile isJsSpace

/-- `String.prototype.trim()` : strip trailing whitespace. -/
def jsTrimEnd (l : Chars) : Chars := (l.reverse.dropWhile isJsSpace).reverse

/-- `String.prototype.trim()`. -/
def jsTrim (l : Chars) : Chars := jsTrimStart (jsTrimEnd l)

/-- Case-sensitive literal prefix stripping. -/
def stripPrefixExact : Chars → Chars → Option Chars
  | [], l => some l
  | _ :: _, [] => none
  | p :: ps, c :: cs => if c = p then stripPrefixExact ps cs else none

/-- Case-insensitive literal prefix stripping (regex `i` flag; patterns are
given in lower case). -/
def stripPrefixCI : Chars → Chars → Option Chars
  | [], l => some l
  | _ :: _, [] => none
  | p :: ps, c :: cs => if c.toLower = p.toLower then stripPrefixCI ps cs else none

/-! ## Regex search combinators

`starThen q p l` decides whether `l` can be split as `l = a ++ r` with every
character of `a` satisfying `q` and `p r`; this is exactly the
match-existence semantics of a backtracking `q* p`.  `plusThen` is `q+ p`. -/

def starThen (q : Char → Bool) (p : Chars → Bool) : Chars → Bool
  | [] => p []
  | c :: t => p (c :: t) || (q c && starThen q p t)

def plusThen (q : Char → Bool) (p : Chars → Bool) : Chars → Bool
  | [] => false
  | c :: t => q c && starThen q p t

/-- Multiline `$` : end of input or immediately before a line terminator. -/
def atEol : Chars → Bool
  | [] => true
  | c :: _ => c = '\n' || c = '\r'

/-- `\s*$` with the `m` flag. -/
def spacesEol : Chars → Bool := starThen isJsSpace atEol

/-- Search for a match of `p` anchored just after a line terminator
(multiline `^`, positions other than the start of input). -/
def anyAfterNewline (p : Chars → Bool) : Chars → Bool
  | [] => false
  | c :: t => ((c = '\n' || c = '\r') && p t) || anyAfterNewline p t

/-- Search for a match of `p` anchored at a multiline `^` position. -/
def anyLineStart (p : Chars → Bool) (l : Chars) : Bool :=
  p l || anyAfterNewline p l

/-! ## `detectClarificationNeeded` (services/cursor.ts, current version)

```
function detectClarificationNeeded(output: string): boolean {
  if (/^#{1,3}\s*clarify?ing\s+questions?/im.test(output)) return true;
  if (/^#{1,3}\s*questions?\s*$/im.test(output)) return true;
  const lines = output.trimEnd().split("\n");
  const lastFewLines = lines.slice(-20).join("\n");
  if (/^\d+\.\s+.+\?\s*$/m.test(lastFewLines)) return true;
  return false;
}
```
-/

def litClarifying : Chars := "clarifying".data
def litClarifing : Chars := "clarifing".data
def litQuestion : Chars := "question".data
def litS : Chars := "s".data

/-- `clarify?ing\s+questions?` (nothing is required after `question`). -/
def clarifKeyword (l : Chars) : Bool :=
  let rest :=
    match stripPrefixCI litClarifying l with
    | some r => some r
    | none => stripPrefixCI litClarifing l
  match rest with
  | some r => plusThen isJsSpace (fun r2 => (stripPrefixCI litQuestion r2).isSome) r
  | none => false

/-- `questions?\s*$` (with the `m` flag). -/
def questionsEol (l : Chars) : Bool :=
  match stripPrefixCI litQuestion l with
  | some r =>
    spacesEol r ||
      (match stripPrefixCI litS r with
       | some r2 => spacesEol r2
       | none => false)
  | none => false

/-- `#{1,3}\s*` then `p` (the hash count backtracks over 1, 2 and 3). -/
def hashesThen (p : Chars → Bool) : Chars → Bool
  | '#' :: r1 =>
    starThen isJsSpace p r1 ||
      (match r1 with
       | '#' :: r2 =>
         starThen isJsSpace p r2 ||
           (match r2 with
            | '#' :: r3 => starThen isJsSpace p r3
            | _ => false)
       | _ => false)
  | _ => false

/-- `\d+\.\s+.+\?\s*$` (with the `m` flag), anchored at the current position. -/
def numberedQuestion : Chars → Bool :=
  plusThen Char.isDigit fun r =>
    match r with
    | '.' :: r2 =>
      plusThen isJsSpace
        (plusThen isRegexDot fun r3 =>
          match r3 with
          | '?' :: r4 => spacesEol r4
          | _ => false) r2
    | _ => false

/-- `String.prototype.split("\n")`. -/
def splitOnNl : Chars → List Chars
  | [] => [[]]
  | c :: t =>
    if c = '\n' then [] :: splitOnNl t
    else
      match splitOnNl t with
      | [] => [[c]]
      | h :: rest => (c :: h) :: rest

/-- `Array.prototype.join("\n")`, written with the head line split off. -/
def nlJoin : List Chars → Chars
  | [] => []
  | l :: ls => '\n' :: (l ++ nlJoin ls)

def joinNl : List Chars → Chars
  | [] => []
  | l :: ls => l ++ nlJoin ls

/-- `output.trimEnd().split("\n").slice(-20).join("\n")`. -/
def lastFewLines (output : Chars) : Chars :=
  let ls := splitOnNl (jsTrimEnd output)
  joinNl (ls.drop (ls.length - 20))

/-- The heading pattern `/^#{1,3}\s*clarify?ing\s+questions?/im`. -/
def hasClarifyingHeading (output : Chars) : Bool :=
  anyLineStart (hashesThen clarifKeyword) output

/-- The heading pattern `/^#{1,3}\s*questions?\s*$/im`. -/
def hasBareQuestionsHeading (output : Chars) : Bool :=
  anyLineStart (hashesThen questionsEol) output

/-- The pattern `/^\d+\.\s+.+\?\s*$/m`, applied to the final ~20 lines. -/
def hasTailNumberedQuestion (output : Chars) : Bool :=
  anyLineStart numberedQuestion (lastFewLines output)

/-- `detectClarificationNeeded` from services/cursor.ts. -/
def detectClarificationNeeded (output : Chars) : Bool :=
  hasClarifyingHeading output ||
  hasBareQuestionsHeading output ||
  hasTailNumberedQuestion output

/-! ## `isApproval` (jobs/planningJob.ts)

```
function isApproval(text: string): boolean {
  return /\b(approved?|lgtm|looks?\s*good|go\s*ahead|proceed|start(\s+work)?|yes|ok(ay)?|confirm(ed)?|ship\s*it|sounds?\s*good)\b/i.test(
    text.trim()
  );
}
```

Every alternative starts and ends with a word character, so the leading `\b`
holds exactly when the previous character is absent or not a word character,
and the trailing `\b` holds exactly when the character following the matched
region is absent or not a word character. -/

def litApprove : Chars := "approve".data
def litD : Chars := "d".data
def litLgtm : Chars := "lgtm".data
def litLook : Chars := "look".data
def litGood : Chars := "good".data
def litGo : Chars := "go".data
def litAhead : Chars := "ahead".data
def litProceed : Chars := "proceed".data
def litStart : Chars := "start".data
def litWork : Chars := "work".data
def litYes : Chars := "yes".data
def litOk : Chars := "ok".data
def litAy : Chars := "ay".data
def litConfirm : Chars := "confirm".data
def litEd : Chars := "ed".data
def litShip : Chars := "ship".data
def litIt : Chars := "it".data
def litSound : Chars := "sound".data

/-- Both remainders allowed by an optional literal suffix `s?`. -/
def optSuffix (s : Chars) (r : Chars) : List Chars :=
  match stripPrefixCI s r with
  | some r2 => [r, r2]
  | none => [r]

/-- Remainders after `\s*` followed by the literal `w` (whose first character
is not whitespace, so maximal munch is exhaustive). -/
def spacedWord (w : Chars) (r : Chars) : List Chars :=
  match stripPrefixCI w (r.dropWhile isJsSpace) with
  | some r2 => [r2]
  | none => []

/-- Remainders after `(\s+work)?` applied to `r`. -/
def optSpaceWork (r : Chars) : List Chars :=
  r ::
    (match r with
     | c :: t => if isJsSpace c then spacedWord litWork t else []
     | [] => [])

/-- All remainders after one alternative of the approval word set matched at
the current position. -/
def approvalAlts (l : Chars) : List Chars :=
  (match stripPrefixCI litApprove l with
   | some r => optSuffix litD r
   | none => []) ++
  (match stripPrefixCI litLgtm l with
   | some r => [r]
   | none => []) ++
  (match stripPrefixCI litLook l with
   | some r => (optSuffix litS r).flatMap (spacedWord litGood)
   | none => []) ++
  (match stripPrefixCI litGo l with
   | some r => spacedWord litAhead r
   | none => []) ++
  (match stripPrefixCI litProceed l with
   | some r => [r]
   | none => []) ++
  (match stripPrefixCI litStart l with
   | some r => optSpaceWork r
   | none => []) ++
  (match stripPrefixCI litYes l with
   | some r => [r]
   | none => []) ++
  (match stripPrefixCI litOk l with
   | some r => optSuffix litAy r
   | none => []) ++
  (match stripPrefixCI litConfirm l with
   | some r => optSuffix litEd r
   | none => []) ++
  (match stripPrefixCI litShip l with
   | some r => spacedWord litIt r
   | none => []) ++
  (match stripPrefixCI litSound l with
   | some r => (optSuffix litS r).flatMap (spacedWord litGood)
   | none => [])

/-- Trailing `\b`. -/
def endsWordOk : Chars → Bool
  | [] => true
  | c :: _ => !wordChar c

/-- Does some alternative match at the current position with both word
boundaries satisfied on the right? -/
def approvalAt (l : Chars) : Bool := (approvalAlts l).any endsWordOk

/-- Scan all positions; `prev` records whether the previous character is a
word character (leading `\b`). -/
def approvalSearch : Bool → Chars → Bool
  | _, [] => false
  | prev, c :: t => (!prev && approvalAt (c :: t)) || approvalSearch (wordChar c) t

/-- `isApproval` from jobs/planningJob.ts. -/
def isApproval (text : Chars) : Bool := approvalSearch false (jsTrim text)

/-! ## Plan document protocol (jobs/implementationJob.ts)

```
export function parsePlanSteps(commentBody: string): PlanStep[] {
  const steps: PlanStep[] = [];
  for (const line of commentBody.split("\n")) {
    const match = line.match(/^- \[ \] Step (\d+): (.+)$/);
    if (match) {
      steps.push({ stepNumber: parseInt(match[1], 10), text: match[2].trim() });
    }
  }
  return steps;
}
```
`parseCheckedSteps` is identical with `[x]`.  Checking a step off is
```
currentCommentBody = currentCommentBody.replace(
  `- [ ] Step ${step.stepNumber}:`, `- [x] Step ${step.stepNumber}:`);
```
i.e. a first-occurrence literal string replacement. -/

/-- A decimal digit character. -/
def digitChar : Nat → Char
  | 0 => '0'
  | 1 => '1'
  | 2 => '2'
  | 3 => '3'
  | 4 => '4'
  | 5 => '5'
  | 6 => '6'
  | 7 => '7'
  | 8 => '8'
  | 9 => '9'
  | _ => 'X'

/-- Little-endian decimal digits; the first argument is a structural bound on
the recursion depth (`n` itself suffices). -/
def natDigitsAux : Nat → Nat → List Nat
  | 0, _ => []
  | bound + 1, n => if n = 0 then [] else n % 10 :: natDigitsAux bound (n / 10)

def natDigitsLE (n : Nat) : List Nat := natDigitsAux n n

/-- The decimal string `${n}` produced by JavaScript number-to-string
conversion for a natural number. -/
def natChars (n : Nat) : Chars :=
  if n = 0 then ['0'] else ((natDigitsLE n).reverse).map digitChar

/-- `parseInt(ds, 10)` on a non-empty all-digit string. -/
def digsToNat (ds : Chars) : Nat :=
  ds.foldl (fun a c => 10 * a + (c.toNat - 48)) 0

/-- The literal `- [<mark>] Step ` that precedes the step number. -/
def stepHead (mark : Char) : Chars :=
  '-' :: ' ' :: '[' :: mark :: ']' :: ' ' :: 'S' :: 't' :: 'e' :: 'p' :: ' ' :: []

/-- The search string `- [ ] Step ${n}:`. -/
def pendingTag (n : Nat) : Chars := stepHead ' ' ++ natChars n ++ [':']

/-- The replacement string `- [x] Step ${n}:`. -/
def doneTag (n : Nat) : Chars := stepHead 'x' ++ natChars n ++ [':']

/-- `line.match(/^- \[<mark>\] Step (\d+): (.+)$/)`, returning the parsed
step number and the trimmed step text. -/
def matchStep (mark : Char) (line : Chars) : Option (Nat × Chars) :=
  match stripPrefixExact (stepHead mark) line with
  | none => none
  | some r =>
    let ds := r.takeWhile Char.isDigit
    match r.dropWhile Char.isDigit with
    | ':' :: ' ' :: t =>
      if ds.isEmpty then none
      else if t.isEmpty then none
      else if t.any (fun c => !isRegexDot c) then none
      else some (digsToNat ds, jsTrim t)
    | _ => none

/-- `parsePlanSteps` from jobs/implementationJob.ts. -/
def parsePlanSteps (body : Chars) : List (Nat × Chars) :=
  (splitOnNl body).filterMap (matchStep ' ')

/-- `parseCheckedSteps` from jobs/implementationJob.ts. -/
def parseCheckedSteps (body : Chars) : List (Nat × Chars) :=
  (splitOnNl body).filterMap (matchStep 'x')

/-- `String.prototype.replace` with a string pattern: replace the first
literal occurrence only. -/
def replaceFirst (pat rep : Chars) : Chars → Chars
  | [] => if pat.isEmpty then rep else []
  | c :: t =>
    if pat.isPrefixOf (c :: t) then rep ++ (c :: t).drop pat.length
    else c :: replaceFirst pat rep t

/-- The step-checkoff mutation performed by the implementation loop. -/
def markStepDone (doc : Chars) (n : Nat) : Chars :=
  replaceFirst (pendingTag n) (doneTag n) doc

/-- `String.prototype.includes`. -/
def containsSub (pat : Chars) : Chars → Bool
  | [] => pat.isEmpty
  | c :: t => pat.isPrefixOf (c :: t) || containsSub pat t

/-- `String.prototype.toLowerCase` (ASCII). -/
def charsToLower (l : Chars) : Chars := l.map Char.toLower

/-! ## Issue record store (db.ts)

```
INSERT INTO issues (id, organization_id, state, repo_path, agent_session_id,
                    plan_comment_id, pr_url, updated_at)
VALUES (...)
ON CONFLICT (id) DO UPDATE SET
  state             = excluded.state,
  repo_path         = COALESCE(excluded.repo_path, issues.repo_path),
  agent_session_id  = COALESCE(excluded.agent_session_id, issues.agent_session_id),
  plan_comment_id   = COALESCE(excluded.plan_comment_id, issues.plan_comment_id),
  pr_url            = COALESCE(excluded.pr_url, issues.pr_url),
  updated_at        = excluded.updated_at
```
-/

inductive IssueState
  | planning
  | awaiting_clarification
  | awaiting_approval
  | in_progress
  | reviewing
  | implemented
deriving DecidableEq, Repr

structure IssueRecord where
  id : String
  organizationId : String
  state : IssueState
  repoPath : Option String
  agentSessionId : Option String
  planCommentId : Option String
  prUrl : Option String
deriving DecidableEq, Repr

/-- The issues table, keyed by issue id. -/
def IssueDb := String → Option IssueRecord

/-- `getIssue` from db.ts. -/
def getIssue (db : IssueDb) (id : String) : Option IssueRecord := db id

/-- `upsertIssue` from db.ts.  Omitted TypeScript arguments come through as
`null`, i.e. `none` here; `organization_id` is not touched by the update arm
of the upsert. -/
def upsertIssue (db : IssueDb) (id organizationId : String) (state : IssueState)
    (repoPath agentSessionId planCommentId prUrl : Option String) : IssueDb :=
  fun k =>
    if k = id then
      some
        (match db id with
         | none =>
           { id := id, organizationId := organizationId, state := state,
             repoPath := repoPath, agentSessionId := agentSessionId,
             planCommentId := planCommentId, prUrl := prUrl }
         | some old =>
           { id := id, organizationId := old.organizationId, state := state,
             repoPath := repoPath.or old.repoPath,
             agentSessionId := agentSessionId.or old.agentSessionId,
             planCommentId := planCommentId.or old.planCommentId,
             prUrl := prUrl.or old.prUrl })
    else db k

/-! ## Collaborator effects

Each job is modelled as a pure function returning the updated store, the
ordered list of collaborator calls it performed, and `some err` when the
job's promise rejects (an uncaught `throw`). -/

inductive JobKind
  | planningJob
  | clarificationJob
  | implementationJob
  | codeReviewJob
  | prCommentJob
deriving DecidableEq, Repr

/-- Where a PR reply goes (jobs/prCommentJob.ts `PrReplyContext`). -/
inductive PrReplyContext
  | inlineComment (commentId : Nat)
  | issueComment (originalBody : Chars)
deriving DecidableEq, Repr

inductive Event
  | fetchIssue (issueId : String)
  | fetchComment (commentId : String)
  | postAgentActivity (sessionId : String) (body : Chars)
  | postComment (issueId : String) (body : Chars)
  | postPlanComment (issueId : String) (body : Chars)
  | updateComment (commentId : String) (body : Chars)
  | updateIssueStatus (issueId : String) (statusName : Chars)
  | ensureCheckout (key : String)
  | createBranch (path : String) (name : Chars)
  | gitPull (path : String)
  | getDiff (path : String)
  | runPlanAgent (prompt : Chars)
  | runWriteAgent (prompt : Chars)
  | commitAndPush (path : String) (message : Chars)
  | createPullRequest (path : String) (title : Chars) (body : Chars)
  | getPrBranch (owner repo : Chars) (prNumber : Nat)
  | postPrComment (owner repo : Chars) (prNumber : Nat) (body : Chars)
  | replyToReviewComment (owner repo : Chars) (prNumber : Nat) (commentId : Nat) (body : Chars)
  | enqueue (job : JobKind)
deriving DecidableEq, Repr

structure JobResult where
  db : IssueDb
  trace : List Event
  error : Option Chars

/-- Issue payload returned by `fetchIssueWithComments`. -/
structure IssueInfo where
  identifier : Chars
  title : Chars
  description : Option Chars
  url : Chars
  creatorName : Option Chars
  comments : List Chars
deriving DecidableEq, Repr

/-! ## Message and template texts -/

def msgPlanApproved : Chars := "✅ Plan approved — starting work now!".data

def tplErrHead : Chars := "\n\n```\n".data
def tplErrTail : Chars := "\n```".data

def msgCheckoutFailedHead : Chars :=
  "⚠️ I was unable to check out the repository. Please ensure `GITHUB_REPO_URL` and `GITHUB_TOKEN` are configured correctly.".data

def msgPlanFailedHead : Chars :=
  "⚠️ I encountered an error while generating the plan. Please check the server logs.".data

def msgUpdatePlanFailedHead : Chars :=
  "⚠️ I encountered an error while updating the plan. Please check the server logs.".data

def tplDraftHead : Chars :=
  "## Implementation Plan (Draft)\n\nI\x27ve started thinking through this ticket, but I have a few questions before I can finalize the plan.\n\n".data
def tplDraftTail : Chars :=
  "\n\n---\n_Please reply with your answers and I\x27ll update the plan._".data

def tplUpdatedHead : Chars :=
  "## Updated Implementation Plan\n\nThank you for the details! I still have a couple of follow-up questions:\n\n".data
def tplUpdatedTail : Chars :=
  "\n\n---\n_Please reply and I\x27ll finalize the plan._".data

def tplPlanCommentHead : Chars := "## Implementation Plan\n\n".data
def tplPlanActivityTail : Chars :=
  "\n\n---\n_Reply **approved** to start work, or share any feedback and I\x27ll update the plan._".data

/-- Appends the `\n\n\`\`\`\n${err}\n\`\`\`` error block used by several
user-facing failure messages. -/
def withErrBlock (head err : Chars) : Chars := head ++ tplErrHead ++ err ++ tplErrTail

/-! ## Prompt builders (jobs/planningJob.ts) -/

def tplInitialPromptHead : Chars :=
  "You are a software engineer planning work on a Linear ticket.\n\nPlease produce a concise implementation plan for the following ticket. If you need any clarifications before you can create a solid plan, list them at the end under a \"## Clarifying Questions\" heading.\n\n## Ticket Title\n".data
def tplInitialPromptTail : Chars :=
  "\n\nOutput format:\n1. A numbered implementation plan.\n2. (Optional) A \"## Clarifying Questions\" section if you need more details.".data

def tplClarPromptHead : Chars :=
  "You are a software engineer planning work on a Linear ticket.\n\nThe following is the ticket details and the conversation so far. A user has responded to your previous clarifying questions. Please update your implementation plan based on their answers. If you still need more information, list remaining questions under \"## Clarifying Questions\".\n\n## Ticket Title\n".data
def tplClarPromptMid : Chars := "\n\n## Conversation\n".data
def tplClarPromptTail : Chars :=
  "\n\nOutput format:\n1. An updated numbered implementation plan.\n2. (Optional) A \"## Clarifying Questions\" section if you still need more details.".data

def tplDescriptionHead : Chars := "\n\n## Description\n".data
def tplCommentHead : Chars := "[Comment]\n".data
def tplCommentsSep : Chars := "\n\n---\n\n".data

/-- `` description?.trim() ? `\n\n## Description\n${description.trim()}` : "" ``. -/
def descSection (description : Option Chars) : Chars :=
  match description with
  | none => []
  | some d => if (jsTrim d).isEmpty then [] else tplDescriptionHead ++ jsTrim d

/-- `buildInitialPrompt` from jobs/planningJob.ts. -/
def buildInitialPrompt (title : Chars) (description : Option Chars) : Chars :=
  tplInitialPromptHead ++ title ++ descSection description ++ tplInitialPromptTail

/-- `comments.map((c) => `[Comment]\n${c.body}`).join("\n\n---\n\n")`. -/
def conversationText (comments : List Chars) : Chars :=
  match comments with
  | [] => []
  | c :: rest => tplCommentHead ++ c ++
      (rest.map (fun b => tplCommentsSep ++ tplCommentHead ++ b)).flatten

/-- `buildClarificationPrompt` from jobs/planningJob.ts. -/
def buildClarificationPrompt (title : Chars) (description : Option Chars)
    (comments : List Chars) : Chars :=
  tplClarPromptHead ++ title ++ descSection description ++ tplClarPromptMid ++
    conversationText comments ++ tplClarPromptTail

/-! ## `planTextToCheckboxes` (jobs/planningJob.ts)

```
const planOnly = planText.split(/^##\s+Clarif/im)[0].trim();
return planOnly.split("\n").map((line) => {
  const match = line.match(/^(\d+)\.\s+(.+)/);
  if (match) return `- [ ] Step ${match[1]}: ${match[2].trim()}`;
  return line;
}).join("\n").trim();
```
-/

def litClarif : Chars := "clarif".data

/-- Does `/^##\s+Clarif/i` match at the current position? -/
def clarifCutMatch : Chars → Bool
  | '#' :: '#' :: r => plusThen isJsSpace (fun r2 => (stripPrefixCI litClarif r2).isSome) r
  | _ => false

/-- Everything up to (excluding) the first multiline-`^` match of the cut
pattern, for positions after a line terminator. -/
def cutAtClarifAux : Chars → Chars
  | [] => []
  | c :: t =>
    c :: (if (c = '\n' || c = '\r') && clarifCutMatch t then [] else cutAtClarifAux t)

/-- `planText.split(/^##\s+Clarif/im)[0]`. -/
def cutAtClarif (l : Chars) : Chars :=
  if clarifCutMatch l then [] else cutAtClarifAux l

/-- `(.+)` capture, i.e. the maximal run of `.`-characters. -/
def dotPlusCapture (l : Chars) : Option Chars :=
  let cap := l.takeWhile isRegexDot
  if cap.isEmpty then none else some cap

/-- Greedy continuation of `\s+` followed by the `(.+)` capture; one space
has already been consumed. -/
def afterSpaces : Chars → Option Chars
  | [] => none
  | c :: t =>
    if isJsSpace c then
      match afterSpaces t with
      | some r => some r
      | none => dotPlusCapture (c :: t)
    else dotPlusCapture (c :: t)

/-- `\s+(.+)` with a greedy `\s+`, returning the `(.+)` capture. -/
def numCapture : Chars → Option Chars
  | [] => none
  | c :: t => if isJsSpace c then afterSpaces t else none

/-- One line of `planTextToCheckboxes`: rewrite `1. text` to
`- [ ] Step 1: text`, keep any other line unchanged. -/
def checkboxLine (line : Chars) : Chars :=
  let ds := line.takeWhile Char.isDigit
  if ds.isEmpty then line
  else
    match line.dropWhile Char.isDigit with
    | '.' :: u =>
      match numCapture u with
      | some cap => stepHead ' ' ++ ds ++ ':' :: ' ' :: jsTrim cap
      | none => line
    | _ => line

/-- `planTextToCheckboxes` from jobs/planningJob.ts. -/
def planTextToCheckboxes (planText : Chars) : Chars :=
  let planOnly := jsTrim (cutAtClarif planText)
  jsTrim (joinNl ((splitOnNl planOnly).map checkboxLine))

/-! ## Planning and clarification jobs (jobs/planningJob.ts, current version) -/

/-- Collaborator results consumed by `runInitialPlanningJob`. -/
structure PlanningEnv where
  issue : IssueInfo
  /-- `ensureRepoCheckedOut`: local path, or the thrown error. -/
  checkout : Except Chars String
  /-- `runPlanMode`: untrimmed raw cursor output, or the thrown error. -/
  planOutcome : Except Chars Chars
  /-- Comment id returned by `postPlanComment`. -/
  planCommentId : String

/-- `postPlanAndAwaitApproval` from jobs/planningJob.ts. -/
def postPlanAndAwaitApproval (db : IssueDb) (sessionId issueId organizationId : String)
    (planText : Chars) (repoPath : String) (newCommentId : String) :
    IssueDb × List Event :=
  let checkboxPlan := planTextToCheckboxes planText
  let commentBody := tplPlanCommentHead ++ checkboxPlan
  let db2 := upsertIssue db issueId organizationId .awaiting_approval
    (some repoPath) none (some newCommentId) none
  (db2,
    [Event.postPlanComment issueId commentBody,
     Event.postAgentActivity sessionId
       (tplPlanCommentHead ++ checkboxPlan ++ tplPlanActivityTail)])

/-- `runInitialPlanningJob` from jobs/planningJob.ts.  The raw output of
`runPlanMode` is trimmed for the `raw` field while the clarification hint is
computed on the untrimmed output, exactly as services/cursor.ts does. -/
def runInitialPlanningJob (db : IssueDb) (issueId organizationId : String)
    (env : PlanningEnv) : JobResult :=
  match getIssue db issueId with
  | none =>
    -- `record?.agentSessionId ?? null` is null: logged and returned
    { db := db, trace := [], error := none }
  | some record =>
    if record.state ≠ IssueState.planning then
      -- idempotency bail-out
      { db := db, trace := [], error := none }
    else
    match record.agentSessionId with
    | none => { db := db, trace := [], error := none }
    | some sessionId =>
      let tr0 := [Event.fetchIssue issueId]
      match env.checkout with
      | .error err =>
        { db := db,
          trace := tr0 ++
            [Event.postAgentActivity sessionId (withErrBlock msgCheckoutFailedHead err)],
          error := none }
      | .ok repoPath =>
        let db1 := upsertIssue db issueId organizationId .planning
          (some repoPath) none none none
        let tr1 := tr0 ++
          [Event.runPlanAgent (buildInitialPrompt env.issue.title env.issue.description)]
        match env.planOutcome with
        | .error err =>
          { db := db1,
            trace := tr1 ++
              [Event.postAgentActivity sessionId (withErrBlock msgPlanFailedHead err)],
            error := none }
        | .ok rawOut =>
          let raw := jsTrim rawOut
          if detectClarificationNeeded rawOut then
            { db := upsertIssue db1 issueId organizationId .awaiting_clarification
                (some repoPath) none none none,
              trace := tr1 ++
                [Event.postAgentActivity sessionId (tplDraftHead ++ raw ++ tplDraftTail)],
              error := none }
          else
            let (db2, evs) := postPlanAndAwaitApproval db1 sessionId issueId organizationId
              raw repoPath env.planCommentId
            { db := db2, trace := tr1 ++ evs, error := none }

/-- Collaborator results consumed by `runClarificationJob`. -/
structure ClarificationEnv where
  issue : IssueInfo
  /-- The `userMessage` argument forwarded from the webhook, when present. -/
  userMessage : Option Chars
  /-- `ensureRepoCheckedOut` result (the current version always calls it). -/
  repoPath : String
  /-- `runPlanMode`: untrimmed raw output, or the thrown error. -/
  planOutcome : Except Chars Chars
  planCommentId : String

/-- `userMessage?.trim() || issue.comments[issue.comments.length - 1]?.body || ""`. -/
def messageToCheck (userMessage : Option Chars) (comments : List Chars) : Chars :=
  let fallback := (comments.getLast?).getD []
  match userMessage with
  | none => fallback
  | some m => if (jsTrim m).isEmpty then fallback else jsTrim m

/-- `runClarificationJob` from jobs/planningJob.ts (current version: the
approval check runs in both waiting states, before any replanning). -/
def runClarificationJob (db : IssueDb) (issueId organizationId : String)
    (env : ClarificationEnv) : JobResult :=
  match getIssue db issueId with
  | none => { db := db, trace := [], error := none }
  | some record =>
    if record.state ≠ IssueState.awaiting_clarification ∧
        record.state ≠ IssueState.awaiting_approval then
      { db := db, trace := [], error := none }
    else
      match record.agentSessionId with
      | none => { db := db, trace := [], error := none }
      | some sessionId =>
        let tr0 := [Event.fetchIssue issueId, Event.ensureCheckout issueId]
        let repoPath := env.repoPath
        if isApproval (messageToCheck env.userMessage env.issue.comments) then
          { db := upsertIssue db issueId organizationId .in_progress
              (some repoPath) none none none,
            trace := tr0 ++
              [Event.postAgentActivity sessionId msgPlanApproved,
               Event.enqueue JobKind.implementationJob],
            error := none }
        else
          let db1 := upsertIssue db issueId organizationId .awaiting_clarification
            (some repoPath) none none none
          let contextComments :=
            match env.userMessage with
            | some m => env.issue.comments ++ [m]
            | none => env.issue.comments
          let prompt := buildClarificationPrompt env.issue.title env.issue.description
            contextComments
          let tr1 := tr0 ++ [Event.runPlanAgent prompt]
          match env.planOutcome with
          | .error err =>
            { db := db1,
              trace := tr1 ++
                [Event.postAgentActivity sessionId
                  (withErrBlock msgUpdatePlanFailedHead err)],
              error := none }
          | .ok rawOut =>
            let raw := jsTrim rawOut
            if detectClarificationNeeded rawOut then
              { db := upsertIssue db1 issueId organizationId .awaiting_clarification
                  (some repoPath) none none none,
                trace := tr1 ++
                  [Event.postAgentActivity sessionId (tplUpdatedHead ++ raw ++ tplUpdatedTail)],
                error := none }
            else
              let (db2, evs) := postPlanAndAwaitApproval db1 sessionId issueId organizationId
                raw repoPath env.planCommentId
              { db := db2, trace := tr1 ++ evs, error := none }

/-! ## Implementation job (jobs/implementationJob.ts, current version) -/

def errNoRecord : Chars := "No DB record for issue".data
def errNoSession : Chars := "No agentSessionId for issue".data
def errNoPlanComment : Chars := "No planCommentId for issue".data
def errUndefinedStep : Chars := "TypeError: cannot read stepNumber of undefined".data

def msgNoSteps : Chars :=
  "🌵 Bummer, dude — no unchecked steps found in the plan comment. Wiped out before we even paddled in. Implementation cancelled.".data

def litBranchHead : Chars := "ralfus/".data
def litTreeSeg : Chars := "/tree/".data

def tplFreshBranchHead : Chars := "🌵 Fresh branch planted: [".data
def tplFreshBranchMid : Chars := "](".data
def tplFreshBranchTail : Chars := ") — dropping in and shredding code now! 🏄".data

def tplResumeBranchHead : Chars := "🌵 Paddling back out on [".data
def tplResumeBranchMid : Chars := ") — resuming from Step ".data
def tplResumeBranchTail : Chars := ". Cowabunga! 🏄".data

def tplStartingStepHead : Chars := "🌊 Dropping in on step ".data
def litSlash : Chars := "/".data
def litColonSpace : Chars := ": ".data
def tplStartingStepTail : Chars := "…".data

def tplStepDoneHead : Chars := "✅ Shredded step ".data
def tplStepDoneTail : Chars := " 🤙".data

def litStepSpace : Chars := "Step ".data

def tplImplPrompt1 : Chars := "You are a software engineer implementing a feature step by step.".data
def tplImplPrompt2 : Chars := "## Full Implementation Plan".data
def tplImplPrompt3 : Chars := "## Current Task".data
def tplImplPrompt4 : Chars :=
  "Please implement the following step completely, making all necessary code changes:".data

def litNothingToCommit : Chars := "nothing to commit".data
def litNothingAdded : Chars := "nothing added to commit".data

def tplResolvesHead : Chars := "Resolves [".data
def tplLinkMid : Chars := "](".data
def tplLinkTail : Chars := ")".data
def tplDescriptionHeading : Chars := "## Description".data
def tplSeeLinear : Chars := "See Linear ticket.".data
def tplSummaryHeading : Chars := "## Implementation Summary".data
def tplTestPlanHeading : Chars := "## Test Plan".data
def tplTestPlan1 : Chars := "- Run existing tests to verify nothing is broken".data
def tplTestPlan2 : Chars :=
  "- Manually verify the implemented functionality against the Linear ticket".data
def litDashSpace : Chars := "- ".data

def tplPrAnnounceHead : Chars :=
  "🌊 Cowabunga! All steps shredded and stoked! PR is hanging loose for review: [View PR](".data
def tplPrAnnounceMid : Chars := ") — ".data
def tplPrAnnounceTail : Chars := ", ready to catch this wave? 🌵".data

def litAtSign : Chars := "@".data
def litTheTeam : Chars := "the team".data

def inProgressStatus : Chars := "In Progress".data
def inReviewStatus : Chars := "In Review".data

/-- `` issue.creatorName ? `@${issue.creatorName}` : "the team" ``. -/
def reviewerText (creatorName : Option Chars) : Chars :=
  match creatorName with
  | some nm => litAtSign ++ nm
  | none => litTheTeam

/-- `` `Step ${step.stepNumber}: ${step.text}` ``. -/
def stepLabel (n : Nat) (text : Chars) : Chars :=
  litStepSpace ++ natChars n ++ litColonSpace ++ text

/-- The per-step write-mode prompt of the implementation loop. -/
def implPrompt (currentCommentBody : Chars) (label : Chars) : Chars :=
  joinNl [tplImplPrompt1, [], tplImplPrompt2, currentCommentBody, [],
    tplImplPrompt3, tplImplPrompt4, [], label]

/-- `` `🌊 Dropping in on step ${n}/${total}: ${text}…` ``. -/
def msgStartingStep (n total : Nat) (text : Chars) : Chars :=
  tplStartingStepHead ++ natChars n ++ litSlash ++ natChars total ++
    litColonSpace ++ text ++ tplStartingStepTail

/-- `` `✅ Shredded step ${n}/${total}: ${text} 🤙` ``. -/
def msgStepComplete (n total : Nat) (text : Chars) : Chars :=
  tplStepDoneHead ++ natChars n ++ litSlash ++ natChars total ++
    litColonSpace ++ text ++ tplStepDoneTail

/-- The PR body assembled after the loop. -/
def prBodyText (identifier url : Chars) (description : Option Chars)
    (summary : Chars) : Chars :=
  joinNl
    [tplResolvesHead ++ identifier ++ tplLinkMid ++ url ++ tplLinkTail,
     [],
     tplDescriptionHeading,
     description.getD tplSeeLinear,
     [],
     tplSummaryHeading,
     summary,
     [],
     tplTestPlanHeading,
     tplTestPlan1,
     tplTestPlan2]

/-- Result of one `commitAndPush` call. -/
inductive CommitOutcome
  | ok
  | failed (msg : Chars)

/-- Collaborator results consumed by `runImplementationJob`. -/
structure ImplEnv where
  issue : IssueInfo
  /-- Body returned by `fetchComment(planCommentId)`. -/
  commentBody : Chars
  /-- `ensureRepoCheckedOut(issueId)`. -/
  repoPath : String
  /-- `getRepoWebUrl()`. -/
  repoWebUrl : Chars
  /-- `createBranch` result: was the branch newly created? -/
  branchWasCreated : Bool
  /-- Outcome of the `commitAndPush` attempt of loop iteration `i`. -/
  commitOutcome : Nat → CommitOutcome
  /-- `createPullRequest` result. -/
  prUrl : Chars

/-- The recursion of step 6 of `runImplementationJob`: one iteration per
pending step, threading the comment body through the checkoff mutation.
Returns the final body, the emitted events and the error of an uncaught
rethrow from `commitAndPush`. -/
def implLoop (sessionId planCommentId : String) (repoPath : String)
    (commitOutcome : Nat → CommitOutcome) (total : Nat) :
    List (Nat × Chars) → Nat → Chars → Chars × List Event × Option Chars
  | [], _, body => (body, [], none)
  | (n, text) :: rest, i, body =>
    let label := stepLabel n text
    let evs0 :=
      [Event.postAgentActivity sessionId (msgStartingStep n total text),
       Event.runWriteAgent (implPrompt body label),
       Event.commitAndPush repoPath label]
    match commitOutcome i with
    | .failed msg =>
      if containsSub litNothingToCommit msg || containsSub litNothingAdded msg then
        let body2 := markStepDone body n
        let evs1 := evs0 ++
          [Event.updateComment planCommentId body2,
           Event.postAgentActivity sessionId (msgStepComplete n total text)]
        let (bodyF, evsF, errF) :=
          implLoop sessionId planCommentId repoPath commitOutcome total rest (i + 1) body2
        (bodyF, evs1 ++ evsF, errF)
      else
        (body, evs0, some msg)
    | .ok =>
      let body2 := markStepDone body n
      let evs1 := evs0 ++
        [Event.updateComment planCommentId body2,
         Event.postAgentActivity sessionId (msgStepComplete n total text)]
      let (bodyF, evsF, errF) :=
        implLoop sessionId planCommentId repoPath commitOutcome total rest (i + 1) body2
      (bodyF, evs1 ++ evsF, errF)

/-- `runImplementationJob` from jobs/implementationJob.ts (current version:
resume support, surf-style messages, summary from
`steps.length > 0 ? steps : checkedSteps`). -/
def runImplementationJob (db : IssueDb) (issueId orgId : String) (env : ImplEnv) :
    JobResult :=
  match getIssue db issueId with
  | none => { db := db, trace := [], error := some errNoRecord }
  | some record =>
    match record.agentSessionId with
    | none => { db := db, trace := [], error := some errNoSession }
    | some sessionId =>
      match record.planCommentId with
      | none => { db := db, trace := [], error := some errNoPlanComment }
      | some planCommentId =>
        let tr0 := [Event.fetchIssue issueId, Event.fetchComment planCommentId]
        let body0 := env.commentBody
        let steps := parsePlanSteps body0
        let checkedSteps := parseCheckedSteps body0
        if steps.isEmpty && checkedSteps.isEmpty then
          { db := db,
            trace := tr0 ++ [Event.postAgentActivity sessionId msgNoSteps],
            error := none }
        else
          let repoPath := env.repoPath
          let branchName := litBranchHead ++ charsToLower env.issue.identifier
          let branchUrl := env.repoWebUrl ++ litTreeSeg ++ branchName
          let tr1 := tr0 ++
            [Event.ensureCheckout issueId,
             Event.createBranch repoPath branchName,
             Event.updateIssueStatus issueId inProgressStatus]
          match
            (if env.branchWasCreated then
              some (tplFreshBranchHead ++ branchName ++ tplFreshBranchMid ++ branchUrl ++
                tplFreshBranchTail)
            else
              match steps with
              | (n, _) :: _ =>
                some (tplResumeBranchHead ++ branchName ++ tplFreshBranchMid ++ branchUrl ++
                  tplResumeBranchMid ++ natChars n ++ tplResumeBranchTail)
              | [] => none) with
          | none =>
            -- `steps[0].stepNumber` with `steps` empty: TypeError
            { db := db, trace := tr1, error := some errUndefinedStep }
          | some branchMsg =>
            let tr2 := tr1 ++ [Event.postAgentActivity sessionId branchMsg]
            let (_, loopEvs, loopErr) :=
              implLoop sessionId planCommentId repoPath env.commitOutcome steps.length
                steps 0 body0
            let tr3 := tr2 ++ loopEvs
            match loopErr with
            | some msg => { db := db, trace := tr3, error := some msg }
            | none =>
              let allSteps := if steps.length > 0 then steps else checkedSteps
              let summary := joinNl (allSteps.map (fun s => litDashSpace ++ s.2))
              let prBody := prBodyText env.issue.identifier env.issue.url
                env.issue.description summary
              let tr4 := tr3 ++
                [Event.createPullRequest repoPath env.issue.title prBody,
                 Event.updateIssueStatus issueId inReviewStatus,
                 Event.postAgentActivity sessionId
                   (tplPrAnnounceHead ++ env.prUrl ++ tplPrAnnounceMid ++
                     reviewerText env.issue.creatorName ++ tplPrAnnounceTail)]
              { db := upsertIssue db issueId orgId .implemented
                  (some repoPath) none none none,
                trace := tr4, error := none }

/-! ## Self-review job (jobs/codeReviewJob.ts) -/

def errNoRepoPath : Chars := "No repoPath for issue".data
def errNoPrUrl : Chars := "No prUrl for issue".data

def tplReviewPrompt1 : Chars :=
  "You are a senior software engineer performing a self-review of code you just implemented.".data
def tplReviewPrompt2 : Chars :=
  "Your job is to read the issue description, the approved implementation plan, and the diff,".data
def tplReviewPrompt3 : Chars :=
  "then fix any issues you find: bugs, logic errors, edge cases, code style inconsistencies,".data
def tplReviewPrompt4 : Chars :=
  "missing error handling, or anything that diverges from the plan.".data
def tplReviewPrompt5 : Chars :=
  "Do NOT add unnecessary changes — only fix real problems.".data
def tplIssueHeading : Chars := "## Issue".data
def tplTitleHead : Chars := "**Title:** ".data
def tplDescrHead : Chars := "**Description:**\n".data
def tplApprovedPlanHead : Chars := "## Approved Implementation Plan\n".data
def tplDiffHeading : Chars := "## Code Diff (changes to review)".data
def tplDiffFenceOpen : Chars := "```diff".data
def tplDiffFenceClose : Chars := "```".data
def tplNoDiff : Chars := "(no diff — branch may be up to date with base)".data
def tplReviewPrompt6 : Chars :=
  "Review the diff carefully against the issue and plan.".data
def tplReviewPrompt7 : Chars :=
  "If you find problems, fix them now. If everything looks good, make no changes.".data
def msgReviewCommit : Chars := "Code review fixes".data
def tplPrReadyHead : Chars := "🌊 PR is up and ready for review: [View PR](".data
def tplPrReadyTail : Chars := ")".data
def litNl : Chars := "\n".data

/-- The self-review prompt: the `filter(Boolean)` drops the entries that are
empty strings before the join. -/
def reviewPrompt (issue : IssueInfo) (approvedPlan : Chars) (diff : Chars) : Chars :=
  joinNl
    (([tplReviewPrompt1, tplReviewPrompt2, tplReviewPrompt3, tplReviewPrompt4,
       tplReviewPrompt5,
       [],
       tplIssueHeading,
       tplTitleHead ++ issue.title,
       (match issue.description with
        | some d => tplDescrHead ++ d
        | none => []),
       [],
       (if approvedPlan.isEmpty then [] else
         tplApprovedPlanHead ++ approvedPlan ++ litNl),
       tplDiffHeading,
       tplDiffFenceOpen,
       (if diff.isEmpty then tplNoDiff else diff),
       tplDiffFenceClose,
       [],
       tplReviewPrompt6,
       tplReviewPrompt7] : List Chars).filter (fun l => !l.isEmpty))

/-- Collaborator results consumed by `runCodeReviewJob`.  The user-facing
review messages come from `pick(...)`, which chooses among three templates
at random; the chosen texts are supplied by the environment. -/
structure ReviewEnv where
  issue : IssueInfo
  /-- `fetchComment(planCommentId)`: the body, or `none` when the fetch threw
  (caught: the job proceeds with an empty plan). -/
  planFetch : Option Chars
  diff : Chars
  hadFixes : Bool
  pickReviewStarting : Chars
  pickReviewHadFixes : Chars
  pickReviewClean : Chars
  pickPrAnnounce : Chars

/-- `runCodeReviewJob` from jobs/codeReviewJob.ts: the phase that performs
the self-review pass and then marks the record `implemented`. -/
def runCodeReviewJob (db : IssueDb) (issueId orgId : String) (env : ReviewEnv) :
    JobResult :=
  match getIssue db issueId with
  | none => { db := db, trace := [], error := some errNoRecord }
  | some record =>
    match record.agentSessionId with
    | none => { db := db, trace := [], error := some errNoSession }
    | some sessionId =>
      match record.repoPath with
      | none => { db := db, trace := [], error := some errNoRepoPath }
      | some repoPath =>
        match record.prUrl with
        | none => { db := db, trace := [], error := some errNoPrUrl }
        | some prUrl =>
          let tr0 :=
            [Event.postAgentActivity sessionId env.pickReviewStarting,
             Event.fetchIssue issueId]
          let (tr1, approvedPlan) :=
            match record.planCommentId with
            | none => (tr0, ([] : Chars))
            | some cid =>
              (tr0 ++ [Event.fetchComment cid], (env.planFetch).getD [])
          let tr2 := tr1 ++
            [Event.getDiff repoPath,
             Event.runWriteAgent (reviewPrompt env.issue approvedPlan env.diff),
             Event.commitAndPush repoPath msgReviewCommit,
             Event.postAgentActivity sessionId
               (if env.hadFixes then env.pickReviewHadFixes else env.pickReviewClean),
             Event.updateIssueStatus issueId inReviewStatus,
             Event.postAgentActivity sessionId env.pickPrAnnounce,
             Event.postComment issueId
               (tplPrReadyHead ++ prUrl.data ++ tplPrReadyTail)]
          { db := upsertIssue db issueId orgId .implemented
              (some repoPath) none none (some prUrl),
            trace := tr2, error := none }

/-! ## PR comment job (jobs/prCommentJob.ts, current version) -/

def msgPrBusy : Chars :=
  "🌊 Hang loose — I\x27m still shredding through the previous request on this PR. Try again once that wave has rolled in! 🌵".data

def tplPrErrorHead : Chars :=
  "🌵 Wiped out on that one! Hit an error while processing your request. Check the server logs for the full damage report.\n\n```\n".data
def tplPrErrorTail : Chars := "\n```".data

def litSlashSep : Chars := "/".data
def litHashSep : Chars := "#".data
def litPrCheckoutHead : Chars := "pr-".data
def litDashSep : Chars := "-".data

def tplPrPrompt1 : Chars :=
  "You are a software engineer working on an open pull request.".data
def tplPrPrompt2 : Chars :=
  "A code reviewer has left a comment requesting a specific change.".data
def tplPrPrompt3 : Chars :=
  "Please implement the requested change exactly. Do NOT make unrelated modifications.".data
def tplPrInstructionHeading : Chars := "## Reviewer Instruction".data
def tplPrDiffHead : Chars := "## Current PR Diff (for context)\n```diff\n".data
def tplPrDiffTail : Chars := "\n```".data
def tplPrNoDiff : Chars :=
  "(no diff available — branch may be up to date with base)".data
def tplPrCommitHead : Chars := "pr comment: ".data
def litQuoteHead : Chars := "> ".data

/-- `` `${owner}/${repo}#${prNumber}` ``. -/
def prKey (owner repo : Chars) (prNumber : Nat) : Chars :=
  owner ++ litSlashSep ++ repo ++ litHashSep ++ natChars prNumber

/-- Quote every line of the original comment with `> `. -/
def quoteLines (b : Chars) : Chars :=
  joinNl ((splitOnNl b).map (fun l => litQuoteHead ++ l))

/-- `postReply` from jobs/prCommentJob.ts. -/
def postReplyEvent (owner repo : Chars) (prNumber : Nat) (rctx : PrReplyContext)
    (body : Chars) : Event :=
  match rctx with
  | .inlineComment cid => Event.replyToReviewComment owner repo prNumber cid body
  | .issueComment orig =>
    Event.postPrComment owner repo prNumber (quoteLines orig ++ '\n' :: '\n' :: body)

/-- The write-mode prompt of the PR comment job. -/
def prCommentPrompt (instruction diff : Chars) : Chars :=
  joinNl
    [tplPrPrompt1, tplPrPrompt2, tplPrPrompt3, [],
     tplPrInstructionHeading, instruction, [],
     (if diff.isEmpty then tplPrNoDiff else tplPrDiffHead ++ diff ++ tplPrDiffTail)]

/-- Collaborator results consumed by `runPrCommentJob`.  `failure` models an
exception thrown inside the `try` block: after `k` of the awaited body steps
completed, the next step throws with the given message (the `catch` arm then
posts the error reply and the `finally` arm releases the key).  The started
and done replies come from `pick(...)`; the chosen texts are supplied here. -/
structure PrEnv where
  headBranch : Chars
  repoPath : String
  diff : Chars
  hadChanges : Bool
  failure : Option (Nat × Chars)
  pickStarted : Chars
  pickDone : Chars

/-- `` `pr-${owner}-${repo}-${prNumber}` ``. -/
def prCheckoutKey (owner repo : Chars) (prNumber : Nat) : Chars :=
  litPrCheckoutHead ++ owner ++ litDashSep ++ repo ++ litDashSep ++ natChars prNumber

/-- The awaited body steps of a fully successful PR comment run, after the
acknowledgement reply. -/
def prBodyEvents (owner repo : Chars) (prNumber : Nat) (instruction : Chars)
    (rctx : PrReplyContext) (env : PrEnv) : List Event :=
  [Event.getPrBranch owner repo prNumber,
   Event.ensureCheckout (String.mk (prCheckoutKey owner repo prNumber)),
   Event.createBranch env.repoPath env.headBranch,
   Event.gitPull env.repoPath,
   Event.getDiff env.repoPath,
   Event.runWriteAgent (prCommentPrompt instruction env.diff),
   Event.commitAndPush env.repoPath (tplPrCommitHead ++ instruction.take 72),
   postReplyEvent owner repo prNumber rctx env.pickDone]

/-- `runPrCommentJob` from jobs/prCommentJob.ts: the `activePrs` lock set is
threaded explicitly; the function never rejects (every failure is caught and
answered with an error reply) and the `finally` arm always deletes the key. -/
def runPrCommentJob (locks : List Chars) (owner repo : Chars) (prNumber : Nat)
    (instruction : Chars) (rctx : PrReplyContext) (env : PrEnv) :
    List Chars × List Event :=
  let key := prKey owner repo prNumber
  if key ∈ locks then
    (locks, [postReplyEvent owner repo prNumber rctx msgPrBusy])
  else
    let locks2 := key :: locks
    let bodyEvs := prBodyEvents owner repo prNumber instruction rctx env
    let evs :=
      postReplyEvent owner repo prNumber rctx env.pickStarted ::
        (match env.failure with
         | none => bodyEvs
         | some (k, msg) =>
           bodyEvs.take k ++
             [postReplyEvent owner repo prNumber rctx
               (tplPrErrorHead ++ msg ++ tplPrErrorTail)])
    (locks2.erase key, evs)

/-! ## Trace projections -/

def isEnqueueEvent : Event → Bool
  | .enqueue _ => true
  | _ => false

def commitMessageOf : Event → Option Chars
  | .commitAndPush _ m => some m
  | _ => none

def prBodyOf : Event → Option Chars
  | .createPullRequest _ _ b => some b
  | _ => none

def stateWriteOf (issueId : String) (db' : IssueDb) : Option IssueState :=
  (db' issueId).map IssueRecord.state

/-! ## Plan document shape (for the parse/mark round trip)

A plan document is rendered from an interleaving of step entries and
free-text lines, exactly the shape `planTextToCheckboxes` generates and the
spec's plan-document grammar describes. -/

inductive PlanEntry where
  | step (n : Nat) (text : Chars)
  | other (line : Chars)
deriving DecidableEq

def renderEntry (done : Nat → Bool) : PlanEntry → Chars
  | .step n t => (if done n then doneTag n else pendingTag n) ++ ' ' :: t
  | .other l => l

def renderDoc (done : Nat → Bool) (es : List PlanEntry) : Chars :=
  joinNl (es.map (renderEntry done))

def entryStep? : PlanEntry → Option Nat
  | .step n _ => some n
  | .other _ => none

/-- No occurrence of any of the k pending search strings. -/
def noTagOcc (k : Nat) (l : Chars) : Bool :=
  (List.range' 1 k).all (fun j => !containsSub (pendingTag j) l)

/-- A step text the textual protocol can handle: non-empty, free of line
terminators, and not containing a pending marker of the document. -/
def goodText (k : Nat) (t : Chars) : Bool :=
  !t.isEmpty && t.all isRegexDot && noTagOcc k t

/-- A free-text line: matches neither step grammar and contains neither a
newline nor a pending marker. -/
def otherLine (k : Nat) (l : Chars) : Bool :=
  (matchStep ' ' l).isNone && (matchStep 'x' l).isNone &&
    decide ('\n' ∉ l) && noTagOcc k l

def entryOk (k : Nat) : PlanEntry → Bool
  | .step _ t => goodText k t
  | .other l => otherLine k l

/-- The document carries exactly the steps `1..k`, in order, each with a
protocol-safe text, interleaved with free-text lines. -/
def WellFormedPlan (k : Nat) (es : List PlanEntry) : Prop :=
  es ≠ [] ∧
  es.filterMap entryStep? = List.range' 1 k ∧
  ∀ e ∈ es, entryOk k e = true

/-- `done` flag function after steps `1..j` have been checked off. -/
def doneLe (j : Nat) : Nat → Bool := fun m => decide (m ≤ j)

/-- What the pending parse returns for one rendered entry. -/
def pendingProject (done : Nat → Bool) : PlanEntry → Option (Nat × Chars)
  | .step n t => if done n then none else some (n, jsTrim t)
  | .other _ => none

/-- What the checked parse returns for one rendered entry. -/
def checkedProject (done : Nat → Bool) : PlanEntry → Option (Nat × Chars)
  | .step n t => if done n then some (n, jsTrim t) else none
  | .other _ => none

/-! ## Concrete fixtures used by the closed claim instances -/

def fixIssueId : String := "iss1"
def fixOrgId : String := "org1"

def fixRecordInProgress : IssueRecord :=
  { id := "iss1", organizationId := "org1", state := .in_progress,
    repoPath := some "/tmp/work/iss1", agentSessionId := some "sess1",
    planCommentId := some "cmt1", prUrl := none }

def fixRecordAwaitingApproval : IssueRecord :=
  { fixRecordInProgress with state := .awaiting_approval }

def fixRecordAwaitingClarification : IssueRecord :=
  { fixRecordInProgress with state := .awaiting_clarification }

def fixRecordReviewReady : IssueRecord :=
  { fixRecordInProgress with
    state := IssueState.reviewing
    prUrl := some "https://github.com/o/r/pull/1" }

def fixDbInProgress : IssueDb :=
  fun k => if k = fixIssueId then some fixRecordInProgress else none

def fixDbAwaitingApproval : IssueDb :=
  fun k => if k = fixIssueId then some fixRecordAwaitingApproval else none

def fixDbAwaitingClarification : IssueDb :=
  fun k => if k = fixIssueId then some fixRecordAwaitingClarification else none

def fixDbReviewReady : IssueDb :=
  fun k => if k = fixIssueId then some fixRecordReviewReady else none

def fixIssue : IssueInfo :=
  { identifier := "ENG-7".data, title := "Add rate limiting".data,
    description := none, url := "https://linear.app/t/issue/ENG-7".data,
    creatorName := some "casey".data, comments := [] }

def txtAlpha : Chars := "alpha".data
def txtBeta : Chars := "beta".data
def txtGamma : Chars := "gamma".data

def fixPlanDocMixed : Chars :=
  "## Implementation Plan\n\n- [x] Step 1: alpha\n- [ ] Step 2: beta\n- [ ] Step 3: gamma".data

def fixPlanDocNoSteps : Chars := "just prose, no checklist here".data

def fixImplEnv : ImplEnv :=
  { issue := fixIssue, commentBody := fixPlanDocMixed,
    repoPath := "/tmp/work/iss1", repoWebUrl := "https://github.com/o/r".data,
    branchWasCreated := false, commitOutcome := fun _ => .ok,
    prUrl := "https://github.com/o/r/pull/1".data }

def fixImplEnvNoSteps : ImplEnv := { fixImplEnv with commentBody := fixPlanDocNoSteps }

def fixReviewEnv : ReviewEnv :=
  { issue := fixIssue, planFetch := some fixPlanDocMixed,
    diff := "diff".data, hadFixes := false,
    pickReviewStarting := "review starting".data,
    pickReviewHadFixes := "review had fixes".data,
    pickReviewClean := "review clean".data,
    pickPrAnnounce := "pr announce".data }

def exApproved : Chars := "approved".data
def exLgtmShip : Chars := "LGTM, ship it".data
def exYesLetsGo : Chars := "yes let\x27s go".data
def exNotYet : Chars := "not yet, need more info".data
def exDoNotProceed : Chars := "do not proceed".data
def exNotLookGood : Chars := "this does not look good".data

def exPlanWithQuestions : Chars :=
  "1. Add login route\n2. Wire sessions\n\n## Clarifying Questions\n1. What auth method?".data

def exPlanNoQuestions : Chars :=
  "1. Add login route\n2. Wire sessions\n\nNo remaining clarifying questions.".data

def fixClarEnvDoNot : ClarificationEnv :=
  { issue := fixIssue, userMessage := some exDoNotProceed,
    repoPath := "/tmp/work/iss1", planOutcome := .ok ("replanned".data),
    planCommentId := "cmt2" }

def fixClarEnvApproved : ClarificationEnv :=
  { fixClarEnvDoNot with userMessage := some exApproved }

def fixPlanningEnv : PlanningEnv :=
  { issue := fixIssue, checkout := .ok "/tmp/work/iss1",
    planOutcome := .ok ("a plan".data), planCommentId := "cmt9" }

def fixOwner : Chars := "octo".data
def fixRepo : Chars := "railz".data
def fixPrNumber : Nat := 5
def fixKey : Chars := prKey fixOwner fixRepo fixPrNumber
def fixInstruction : Chars := "rename the helper".data

def fixPrEnv : PrEnv :=
  { headBranch := "feat/x".data, repoPath := "/tmp/pr", diff := "d".data,
    hadChanges := true, failure := none,
    pickStarted := "started".data, pickDone := "done".data }

def fixPrEnvFailing : PrEnv := { fixPrEnv with failure := some (3, "boom".data) }

def fixDb4 : IssueDb :=
  fun k =>
    if k = fixIssueId then
      some { fixRecordAwaitingApproval with repoPath := some "X0", agentSessionId := some "old-session" }
    else none

/-- Example document shape for the round-trip witness:
steps 1..3 with a heading line in front. -/
def fixEntries : List PlanEntry :=
  [PlanEntry.other ("## Implementation Plan".data),
   PlanEntry.other [],
   PlanEntry.step 1 ("alpha".data),
   PlanEntry.step 2 ("beta".data),
   PlanEntry.step 3 ("gamma".data)]

/-!
# Theorems
-/

/-! ## C3: clarification-needed detection -/

/-- Claim C3: the agent's plan-mode output is classified as needing
clarification exactly when it contains a `Clarifying Questions` heading, a
bare `Questions` heading, or a numbered list item ending in a question mark
within the final ~20 lines; in particular a plan ending in
`## Clarifying Questions\n1. What auth method?` is classified as needing
clarification and a plan ending in `No remaining clarifying questions.` is
not. -/
theorem claim_C3_clarification_detection :
    (∀ output : Chars,
      detectClarificationNeeded output =
        (hasClarifyingHeading output || hasBareQuestionsHeading output ||
          hasTailNumberedQuestion output)) ∧
    detectClarificationNeeded exPlanWithQuestions = true ∧
    hasClarifyingHeading exPlanWithQuestions = true ∧
    detectClarificationNeeded exPlanNoQuestions = false := by
  refine ⟨fun output => rfl, by decide, by decide, by decide⟩

/-! ## C4: merge-on-null upsert -/

/-- Claim C4: `upsertIssue` has merge-on-null semantics on an existing
record: a `null` (`none`) value for `repoPath`, `agentSessionId`,
`planCommentId` or `prUrl` preserves the stored value of that field, a
non-null value overwrites it, and the supplied state is always written. -/
theorem claim_C4_upsert_merge_on_null (db : IssueDb) (id org : String)
    (st : IssueState) (rp sid pc pu : Option String) (old : IssueRecord)
    (h : getIssue db id = some old) :
    ∃ r, upsertIssue db id org st rp sid pc pu id = some r ∧
      r.state = st ∧
      (rp = none → r.repoPath = old.repoPath) ∧
      (∀ v, rp = some v → r.repoPath = some v) ∧
      (sid = none → r.agentSessionId = old.agentSessionId) ∧
      (∀ v, sid = some v → r.agentSessionId = some v) ∧
      (pc = none → r.planCommentId = old.planCommentId) ∧
      (∀ v, pc = some v → r.planCommentId = some v) ∧
      (pu = none → r.prUrl = old.prUrl) ∧
      (∀ v, pu = some v → r.prUrl = some v) := by
  have hdb : db id = some old := h
  refine ⟨{ id := id, organizationId := old.organizationId, state := st,
            repoPath := rp.or old.repoPath,
            agentSessionId := sid.or old.agentSessionId,
            planCommentId := pc.or old.planCommentId,
            prUrl := pu.or old.prUrl },
          ?_, rfl, ?_, ?_, ?_, ?_, ?_, ?_, ?_, ?_⟩
  · unfold upsertIssue
    rw [if_pos rfl, hdb]
  · rintro rfl; rfl
  · rintro v rfl; rfl
  · rintro rfl; rfl
  · rintro v rfl; rfl
  · rintro rfl; rfl
  · rintro v rfl; rfl
  · rintro rfl; rfl
  · rintro v rfl; rfl

/-- Witness for C4 at the spec's example: the upsert passes a new state and
a new session id with a `null` repo path; the previously stored
`repoPath = "X0"` survives while state and session id are updated. -/
theorem claim_C4_witness :
    getIssue fixDb4 fixIssueId =
      some { fixRecordAwaitingApproval with
             repoPath := some "X0", agentSessionId := some "old-session" } ∧
    (∃ r, upsertIssue fixDb4 fixIssueId fixOrgId IssueState.in_progress
        none (some "keep-session") none none fixIssueId = some r ∧
      r.state = IssueState.in_progress ∧
      (none = (none : Option String) → r.repoPath =
        ({ fixRecordAwaitingApproval with
           repoPath := some "X0", agentSessionId := some "old-session" } : IssueRecord).repoPath) ∧
      (∀ v, (none : Option String) = some v → r.repoPath = some v) ∧
      ((some "keep-session" : Option String) = none → r.agentSessionId =
        ({ fixRecordAwaitingApproval with
           repoPath := some "X0", agentSessionId := some "old-session" } : IssueRecord).agentSessionId) ∧
      (∀ v, (some "keep-session" : Option String) = some v → r.agentSessionId = some v) ∧
      ((none : Option String) = none → r.planCommentId =
        ({ fixRecordAwaitingApproval with
           repoPath := some "X0", agentSessionId := some "old-session" } : IssueRecord).planCommentId) ∧
      (∀ v, (none : Option String) = some v → r.planCommentId = some v) ∧
      ((none : Option String) = none → r.prUrl =
        ({ fixRecordAwaitingApproval with
           repoPath := some "X0", agentSessionId := some "old-session" } : IssueRecord).prUrl) ∧
      (∀ v, (none : Option String) = some v → r.prUrl = some v)) :=
  ⟨by decide,
   claim_C4_upsert_merge_on_null fixDb4 fixIssueId fixOrgId IssueState.in_progress
     none (some "keep-session") none none _ (by decide)⟩

/-! ## C6: idempotent assignment handling -/

/-- Claim C6: once an issue record exists and its state has left `planning`,
`runInitialPlanningJob` is a no-op: the store is returned unchanged, no
collaborator call is made and no error escapes — so replaying the same
assignment event never double-runs the Planning phase. -/
theorem claim_C6_idempotent_assignment (db : IssueDb) (issueId orgId : String)
    (env : PlanningEnv) (r : IssueRecord)
    (h1 : getIssue db issueId = some r)
    (h2 : r.state ≠ IssueState.planning) :
    runInitialPlanningJob db issueId orgId env =
      { db := db, trace := [], error := none } := by
  unfold runInitialPlanningJob
  rw [h1]
  simp [h2]

/-- Witness for C6: an issue already `awaiting_approval` is untouched by a
replayed assignment. -/
theorem claim_C6_witness :
    getIssue fixDbAwaitingApproval fixIssueId = some fixRecordAwaitingApproval ∧
    fixRecordAwaitingApproval.state ≠ IssueState.planning ∧
    runInitialPlanningJob fixDbAwaitingApproval fixIssueId fixOrgId fixPlanningEnv =
      { db := fixDbAwaitingApproval, trace := [], error := none } :=
  ⟨by decide, by decide,
   claim_C6_idempotent_assignment fixDbAwaitingApproval fixIssueId fixOrgId
     fixPlanningEnv fixRecordAwaitingApproval (by decide) (by decide)⟩

/-! ## C9: empty plan aborts the implementation phase -/

/-- Claim C9: when the plan document parses to zero pending and zero done
steps, the Implementation phase posts the user-visible cancellation message
and halts: the store is unchanged (no upsert at all), the only collaborator
calls are the two fetches and the message post, and no error escapes. -/
theorem claim_C9_empty_plan_halts (db : IssueDb) (issueId orgId : String)
    (env : ImplEnv) (r : IssueRecord) (sid pc : String)
    (h1 : getIssue db issueId = some r)
    (hs : r.agentSessionId = some sid)
    (hp : r.planCommentId = some pc)
    (hpending : parsePlanSteps env.commentBody = [])
    (hdone : parseCheckedSteps env.commentBody = []) :
    runImplementationJob db issueId orgId env =
      { db := db,
        trace := [Event.fetchIssue issueId, Event.fetchComment pc,
                  Event.postAgentActivity sid msgNoSteps],
        error := none } := by
  unfold runImplementationJob
  rw [h1]
  simp [hs, hp, hpending, hdone]

/-- Witness for C9 on a plan comment with no checklist at all. -/
theorem claim_C9_witness :
    parsePlanSteps fixPlanDocNoSteps = [] ∧
    parseCheckedSteps fixPlanDocNoSteps = [] ∧
    runImplementationJob fixDbInProgress fixIssueId fixOrgId fixImplEnvNoSteps =
      { db := fixDbInProgress,
        trace := [Event.fetchIssue fixIssueId, Event.fetchComment "cmt1",
                  Event.postAgentActivity "sess1" msgNoSteps],
        error := none } :=
  ⟨by decide, by decide,
   claim_C9_empty_plan_halts fixDbInProgress fixIssueId fixOrgId fixImplEnvNoSteps
     fixRecordInProgress "sess1" "cmt1" (by decide) (by decide) (by decide)
     (by decide) (by decide)⟩

/-! ## C5: approval handling in both waiting states -/

/-- Claim C5: a follow-up reply matching the approval grammar, received in
either waiting state, moves the record to `in_progress` and enqueues the
Implementation job; the example strings classify as the claim says. -/
theorem claim_C5_approval_transitions (db : IssueDb) (issueId orgId : String)
    (env : ClarificationEnv) (r : IssueRecord) (sid : String)
    (h1 : getIssue db issueId = some r)
    (hstate : r.state = IssueState.awaiting_clarification ∨
      r.state = IssueState.awaiting_approval)
    (hsid : r.agentSessionId = some sid)
    (happr : isApproval (messageToCheck env.userMessage env.issue.comments) = true) :
    ((runClarificationJob db issueId orgId env).db issueId).map IssueRecord.state =
      some IssueState.in_progress ∧
    Event.enqueue JobKind.implementationJob ∈ (runClarificationJob db issueId orgId env).trace ∧
    (runClarificationJob db issueId orgId env).error = none ∧
    isApproval exApproved = true ∧
    isApproval exLgtmShip = true ∧
    isApproval exYesLetsGo = true ∧
    isApproval exNotYet = false := by
  have hguard : ¬ (r.state ≠ IssueState.awaiting_clarification ∧
      r.state ≠ IssueState.awaiting_approval) := by
    rintro ⟨hA, hB⟩
    rcases hstate with h | h
    · exact hA h
    · exact hB h
  have hdb : db issueId = some r := h1
  refine ⟨?_, ?_, ?_, by decide, by decide, by decide, by decide⟩ <;>
    · unfold runClarificationJob
      rw [h1]
      simp [hguard, hsid, happr, upsertIssue, getIssue, hdb]

/-- Witness for C5: an `approved` reply while `awaiting_clarification`. -/
theorem claim_C5_witness :
    getIssue fixDbAwaitingClarification fixIssueId = some fixRecordAwaitingClarification ∧
    isApproval (messageToCheck fixClarEnvApproved.userMessage
      fixClarEnvApproved.issue.comments) = true ∧
    (((runClarificationJob fixDbAwaitingClarification fixIssueId fixOrgId
        fixClarEnvApproved).db fixIssueId).map IssueRecord.state =
      some IssueState.in_progress ∧
     Event.enqueue JobKind.implementationJob ∈
       (runClarificationJob fixDbAwaitingClarification fixIssueId fixOrgId
         fixClarEnvApproved).trace ∧
     (runClarificationJob fixDbAwaitingClarification fixIssueId fixOrgId
       fixClarEnvApproved).error = none ∧
     isApproval exApproved = true ∧
     isApproval exLgtmShip = true ∧
     isApproval exYesLetsGo = true ∧
     isApproval exNotYet = false) :=
  ⟨by decide, by decide,
   claim_C5_approval_transitions fixDbAwaitingClarification fixIssueId fixOrgId
     fixClarEnvApproved fixRecordAwaitingClarification "sess1" (by decide)
     (Or.inl (by decide)) (by decide) (by decide)⟩

/-! ## C10: the approval classifier is negation-blind -/

/-- Claim C10: the classifier accepts any text containing an affirmative
word as a standalone word, regardless of surrounding negation: both
`do not proceed` and `this does not look good` classify as approvals, and
such a reply in a waiting state moves the issue to `in_progress` and
enqueues the Implementation phase. -/
theorem claim_C10_negation_blind_approval :
    isApproval exDoNotProceed = true ∧
    isApproval exNotLookGood = true ∧
    ((runClarificationJob fixDbAwaitingApproval fixIssueId fixOrgId
        fixClarEnvDoNot).db fixIssueId).map IssueRecord.state =
      some IssueState.in_progress ∧
    Event.enqueue JobKind.implementationJob ∈
      (runClarificationJob fixDbAwaitingApproval fixIssueId fixOrgId
        fixClarEnvDoNot).trace := by
  refine ⟨by decide, by decide, by decide, by decide⟩

/-! ## C8: per-PR lock table -/

/-- Claim C8: a trigger for a PR whose key is held gets exactly the busy
reply and leaves the lock table unchanged; for a free key the job — whether
it succeeds or throws anywhere in its body — always leaves the lock table as
it found it; consequently a subsequent trigger for the same key is accepted
and proceeds to the work phase. -/
theorem claim_C8_pr_lock (locks : List Chars) (owner repo : Chars) (prNumber : Nat)
    (instruction instruction₂ : Chars) (rctx rctx₂ : PrReplyContext) (env env₂ : PrEnv) :
    (prKey owner repo prNumber ∈ locks →
      runPrCommentJob locks owner repo prNumber instruction rctx env =
        (locks, [postReplyEvent owner repo prNumber rctx msgPrBusy])) ∧
    (prKey owner repo prNumber ∉ locks →
      (runPrCommentJob locks owner repo prNumber instruction rctx env).1 = locks) ∧
    (prKey owner repo prNumber ∉ locks → env₂.failure = none →
      (runPrCommentJob
          (runPrCommentJob locks owner repo prNumber instruction rctx env).1
          owner repo prNumber instruction₂ rctx₂ env₂).2 =
        postReplyEvent owner repo prNumber rctx₂ env₂.pickStarted ::
          prBodyEvents owner repo prNumber instruction₂ rctx₂ env₂) := by
  have hrel : prKey owner repo prNumber ∉ locks →
      (runPrCommentJob locks owner repo prNumber instruction rctx env).1 = locks := by
    intro hfree
    unfold runPrCommentJob
    rw [if_neg hfree]
    exact List.erase_cons_head _ _
  refine ⟨?_, hrel, ?_⟩
  · intro hheld
    unfold runPrCommentJob
    rw [if_pos hheld]
  · intro hfree hok
    rw [hrel hfree]
    unfold runPrCommentJob
    rw [if_neg hfree, hok]

/-- Witness for C8, instantiated both with a held key (busy reply, table
unchanged) and with a free key under a throwing body (key released, third
trigger accepted). -/
theorem claim_C8_witness :
    (fixKey ∈ [fixKey] ∧
      runPrCommentJob [fixKey] fixOwner fixRepo fixPrNumber fixInstruction
          (PrReplyContext.inlineComment 3) fixPrEnv =
        ([fixKey],
         [postReplyEvent fixOwner fixRepo fixPrNumber
           (PrReplyContext.inlineComment 3) msgPrBusy])) ∧
    (fixKey ∉ ([] : List Chars) ∧
      (runPrCommentJob [] fixOwner fixRepo fixPrNumber fixInstruction
        (PrReplyContext.inlineComment 3) fixPrEnvFailing).1 = [] ∧
      (runPrCommentJob
          (runPrCommentJob [] fixOwner fixRepo fixPrNumber fixInstruction
            (PrReplyContext.inlineComment 3) fixPrEnvFailing).1
          fixOwner fixRepo fixPrNumber fixInstruction
          (PrReplyContext.inlineComment 3) fixPrEnv).2 =
        postReplyEvent fixOwner fixRepo fixPrNumber
            (PrReplyContext.inlineComment 3) fixPrEnv.pickStarted ::
          prBodyEvents fixOwner fixRepo fixPrNumber fixInstruction
            (PrReplyContext.inlineComment 3) fixPrEnv) :=
  ⟨⟨by decide,
    (claim_C8_pr_lock [fixKey] fixOwner fixRepo fixPrNumber fixInstruction
      fixInstruction (PrReplyContext.inlineComment 3) (PrReplyContext.inlineComment 3)
      fixPrEnv fixPrEnv).1 (by decide)⟩,
   ⟨by decide,
    (claim_C8_pr_lock [] fixOwner fixRepo fixPrNumber fixInstruction
      fixInstruction (PrReplyContext.inlineComment 3) (PrReplyContext.inlineComment 3)
      fixPrEnvFailing fixPrEnv).2.1 (by decide),
    (claim_C8_pr_lock [] fixOwner fixRepo fixPrNumber fixInstruction
      fixInstruction (PrReplyContext.inlineComment 3) (PrReplyContext.inlineComment 3)
      fixPrEnvFailing fixPrEnv).2.2 (by decide) rfl⟩⟩

/-! ## C1: the Implementation phase never hands off to Self-Review -/

/-- Claim C1 (code behaviour at a concrete run): after the last pending step
and the pull-request creation, `runImplementationJob` writes the record
state `implemented` directly — not `reviewing` — and enqueues nothing; the
Self-Review job `runCodeReviewJob` (which is what the spec expects to be
enqueued here, and which does end at `implemented`) is therefore never
reached through the record flow. -/
theorem claim_C1_code_behavior :
    (runImplementationJob fixDbInProgress fixIssueId fixOrgId fixImplEnv).error = none ∧
    ((runImplementationJob fixDbInProgress fixIssueId fixOrgId fixImplEnv).db
        fixIssueId).map IssueRecord.state = some IssueState.implemented ∧
    ((runImplementationJob fixDbInProgress fixIssueId fixOrgId fixImplEnv).db
        fixIssueId).map IssueRecord.state ≠ some IssueState.reviewing ∧
    (runImplementationJob fixDbInProgress fixIssueId fixOrgId fixImplEnv).trace.all
      (fun e => !isEnqueueEvent e) = true ∧
    ((runCodeReviewJob fixDbReviewReady fixIssueId fixOrgId fixReviewEnv).db
        fixIssueId).map IssueRecord.state = some IssueState.implemented := by
  refine ⟨by decide, by decide, by decide, by decide, by decide⟩

/-! ## C2: resume behaviour and the pull-request summary -/

/-- Counterexample for C2 as stated: on the plan with step 1 already checked
and steps 2–3 pending, the job re-executes exactly steps 2 and 3 (in order),
but the created pull request's body — which contains the implementation
summary — nowhere includes step 1's text `alpha`. -/
theorem claim_C2_counterexample :
    parseCheckedSteps fixPlanDocMixed = [(1, txtAlpha)] ∧
    parsePlanSteps fixPlanDocMixed = [(2, txtBeta), (3, txtGamma)] ∧
    (runImplementationJob fixDbInProgress fixIssueId fixOrgId fixImplEnv).error = none ∧
    (runImplementationJob fixDbInProgress fixIssueId fixOrgId
        fixImplEnv).trace.filterMap commitMessageOf =
      [stepLabel 2 txtBeta, stepLabel 3 txtGamma] ∧
    ((runImplementationJob fixDbInProgress fixIssueId fixOrgId
        fixImplEnv).trace.filterMap prBodyOf).all
      (fun b => !containsSub txtAlpha b) = true := by
  refine ⟨by decide, by decide, by decide, by decide, by decide⟩

/-! ## String-level lemmas for the plan protocol -/

theorem containsSub_iff (pat : Chars) : ∀ l : Chars, containsSub pat l = true ↔ pat <:+: l
  | [] => by
    simp [containsSub, List.isEmpty_iff, List.infix_nil]
  | c :: t => by
    rw [containsSub]
    simp only [Bool.or_eq_true]
    rw [containsSub_iff pat t, List.isPrefixOf_iff_prefix]
    exact List.infix_cons_iff.symm

theorem takeWhile_all_append (p : Char → Bool) (x : Char) (hx : p x = false) :
    ∀ (ds r : Chars), (∀ c ∈ ds, p c = true) →
      (ds ++ x :: r).takeWhile p = ds ∧ (ds ++ x :: r).dropWhile p = x :: r
  | [], r, _ => by simp [List.takeWhile_cons, List.dropWhile_cons, hx]
  | c :: ds, r, h => by
    have hc : p c = true := h c (List.mem_cons_self c ds)
    have ih := takeWhile_all_append p x hx ds r
      (fun d hd => h d (List.mem_cons_of_mem c hd))
    simp [List.takeWhile_cons, List.dropWhile_cons, hc, ih.1, ih.2]

theorem stripPrefixExact_self_append : ∀ (p r : Chars), stripPrefixExact p (p ++ r) = some r
  | [], _ => rfl
  | c :: p, r => by simp [stripPrefixExact, stripPrefixExact_self_append p r]

theorem stripHead_cross {m₁ m₂ : Char} (hne : m₂ ≠ m₁) (r : Chars) :
    stripPrefixExact (stepHead m₁) (stepHead m₂ ++ r) = none := by
  simp [stepHead, stripPrefixExact, hne]

/-! ## Decimal printing facts -/

theorem natDigitsAux_lt10 : ∀ (bound n : Nat), ∀ d ∈ natDigitsAux bound n, d < 10
  | 0, n => by simp [natDigitsAux]
  | bound + 1, n => by
    by_cases h : n = 0
    · simp [natDigitsAux, h]
    · simp only [natDigitsAux, if_neg h]
      intro d hd
      rcases List.mem_cons.mp hd with h1 | h2
      · subst h1; exact Nat.mod_lt _ (by omega)
      · exact natDigitsAux_lt10 bound (n / 10) d h2

theorem natDigitsAux_val : ∀ (bound n : Nat), n ≤ bound →
    (natDigitsAux bound n).foldr (fun d a => 10 * a + d) 0 = n
  | 0, n, h => by
    have hn : n = 0 := by omega
    subst hn; simp [natDigitsAux]
  | bound + 1, n, h => by
    by_cases h0 : n = 0
    · simp [natDigitsAux, h0]
    · have hlt : n / 10 < n := Nat.div_lt_self (Nat.pos_of_ne_zero h0) (by omega)
      have hdiv : n / 10 ≤ bound := by omega
      simp only [natDigitsAux, if_neg h0, List.foldr_cons]
      rw [natDigitsAux_val bound (n / 10) hdiv]
      omega

theorem digitChar_isDigit {d : Nat} (h : d < 10) : (digitChar d).isDigit = true := by
  interval_cases d <;> decide

theorem digitChar_toNat {d : Nat} (h : d < 10) : (digitChar d).toNat - 48 = d := by
  interval_cases d <;> decide

theorem natChars_digits (n : Nat) : ∀ c ∈ natChars n, c.isDigit = true := by
  intro c hc
  unfold natChars at hc
  by_cases h : n = 0
  · rw [if_pos h] at hc
    simp only [List.mem_singleton] at hc
    subst hc; decide
  · rw [if_neg h] at hc
    simp only [List.mem_map, List.mem_reverse] at hc
    obtain ⟨d, hd, rfl⟩ := hc
    exact digitChar_isDigit (natDigitsAux_lt10 n n d hd)

theorem natChars_ne_nil (n : Nat) : natChars n ≠ [] := by
  unfold natChars
  by_cases h : n = 0
  · simp [h]
  · rw [if_neg h]
    have hne : natDigitsLE n ≠ [] := by
      unfold natDigitsLE
      match n, h with
      | m + 1, _ => simp [natDigitsAux]
    simp [hne]

theorem digsToNat_natChars (n : Nat) : digsToNat (natChars n) = n := by
  by_cases h : n = 0
  · subst h; decide
  · unfold digsToNat natChars
    rw [if_neg h, List.foldl_map, List.foldl_reverse]
    have hcongr : ∀ ds : List Nat, (∀ d ∈ ds, d < 10) →
        ds.foldr (fun x y => 10 * y + ((digitChar x).toNat - 48)) 0 =
          ds.foldr (fun d a => 10 * a + d) 0 := by
      intro ds hds
      induction ds with
      | nil => rfl
      | cons d ds ih =>
        simp only [List.foldr_cons]
        rw [ih (fun x hx => hds x (List.mem_cons_of_mem _ hx)),
          digitChar_toNat (hds d (List.mem_cons_self _ _))]
    rw [show natDigitsLE n = natDigitsAux n n from rfl]
    rw [hcongr _ (natDigitsAux_lt10 n n)]
    exact natDigitsAux_val n n le_rfl

/-- Characters of a digit string are ordinary (not line terminators, not
protocol punctuation). -/
theorem isDigit_regexDot {c : Char} (h : c.isDigit = true) : isRegexDot c = true := by
  simp only [Char.isDigit, Bool.and_eq_true, decide_eq_true_eq] at h
  obtain ⟨h1, h2⟩ := h
  simp only [isRegexDot, Bool.not_eq_true', Bool.or_eq_false_iff, decide_eq_false_iff_not]
  refine ⟨⟨⟨?_, ?_⟩, ?_⟩, ?_⟩ <;> rintro rfl <;> revert h1 h2 <;> decide

theorem isDigit_ne_nl {c : Char} (h : c.isDigit = true) : c ≠ '\n' := by
  rintro rfl; simp [Char.isDigit] at h

theorem isDigit_ne_dash {c : Char} (h : c.isDigit = true) : c ≠ '-' := by
  rintro rfl; simp [Char.isDigit] at h

theorem isDigit_not_digit_colon : (':' : Char).isDigit = false := by decide

/-! ## `matchStep` on rendered lines -/

theorem matchStep_hit (mark : Char) (n : Nat) (t : Chars)
    (ht : t ≠ []) (hdot : t.all isRegexDot = true) :
    matchStep mark (stepHead mark ++ (natChars n ++ ':' :: ' ' :: t)) =
      some (n, jsTrim t) := by
  unfold matchStep
  rw [stripPrefixExact_self_append]
  obtain ⟨htake, hdrop⟩ := takeWhile_all_append Char.isDigit ':' isDigit_not_digit_colon
    (natChars n) (' ' :: t) (natChars_digits n)
  simp only [htake, hdrop]
  rw [if_neg (by simpa [List.isEmpty_iff] using natChars_ne_nil n)]
  rw [if_neg (by simpa [List.isEmpty_iff] using ht)]
  rw [if_neg ?_, digsToNat_natChars]
  rw [List.any_eq_true]
  push_neg
  intro c hc
  have := List.all_eq_true.mp hdot c hc
  simp [this]

theorem matchStep_cross {m₁ m₂ : Char} (hne : m₂ ≠ m₁) (r : Chars) :
    matchStep m₁ (stepHead m₂ ++ r) = none := by
  unfold matchStep
  rw [stripHead_cross hne]

/-! ## `splitOnNl` and `joinNl` -/

theorem splitOnNl_no_nl : ∀ l : Chars, '\n' ∉ l → splitOnNl l = [l]
  | [], _ => rfl
  | c :: t, h => by
    have hc : ¬ (c = '\n') := fun hh => h (hh ▸ List.mem_cons_self c t)
    simp [splitOnNl, hc, splitOnNl_no_nl t (fun hm => h (List.mem_cons_of_mem c hm))]

theorem splitOnNl_append_nl : ∀ (l r : Chars), '\n' ∉ l →
    splitOnNl (l ++ '\n' :: r) = l :: splitOnNl r
  | [], r, _ => by simp [splitOnNl]
  | c :: t, r, h => by
    have hc : ¬ (c = '\n') := fun hh => h (hh ▸ List.mem_cons_self c t)
    have ih := splitOnNl_append_nl t r (fun hm => h (List.mem_cons_of_mem c hm))
    simp [splitOnNl, hc, ih]

theorem nlJoin_eq : ∀ (ls : List Chars), ls ≠ [] → nlJoin ls = '\n' :: joinNl ls
  | [], h => absurd rfl h
  | _ :: _, _ => rfl

theorem splitOnNl_joinNl : ∀ ls : List Chars, ls ≠ [] → (∀ l ∈ ls, '\n' ∉ l) →
    splitOnNl (joinNl ls) = ls
  | [], h, _ => absurd rfl h
  | [l], _, hl => by
    have : joinNl [l] = l := by simp [joinNl, nlJoin]
    rw [this]
    exact splitOnNl_no_nl l (hl l (List.mem_singleton.mpr rfl))
  | l :: l' :: ls, _, hl => by
    have hj : joinNl (l :: l' :: ls) = l ++ '\n' :: joinNl (l' :: ls) := rfl
    rw [hj, splitOnNl_append_nl l _ (hl l (List.mem_cons_self _ _))]
    rw [splitOnNl_joinNl (l' :: ls) (by simp)
      (fun x hx => hl x (List.mem_cons_of_mem _ hx))]

/-! ## Prefix and suffix decompositions -/

theorem prefix_append_cases : ∀ {p a r : Chars}, p <+: a ++ r →
    p <+: a ∨ ∃ q, p = a ++ q ∧ q <+: r := by
  intro p a r
  induction a generalizing p with
  | nil => exact fun h => Or.inr ⟨p, by simp, h⟩
  | cons c a ih =>
    intro h
    match p with
    | [] => exact Or.inl (by simp)
    | d :: p =>
      rw [show (c :: a) ++ r = c :: (a ++ r) from rfl, List.cons_prefix_cons] at h
      obtain ⟨rfl, h2⟩ := h
      rcases ih h2 with h3 | ⟨q, rfl, hq⟩
      · exact Or.inl (List.cons_prefix_cons.mpr ⟨rfl, h3⟩)
      · exact Or.inr ⟨q, rfl, hq⟩

theorem suffix_append_cases : ∀ {s a b : Chars}, s <:+ a ++ b →
    s <:+ b ∨ ∃ s', s = s' ++ b ∧ s' <:+ a := by
  intro s a b
  induction a generalizing s with
  | nil => exact fun h => Or.inl h
  | cons c a ih =>
    intro h
    rw [show (c :: a) ++ b = c :: (a ++ b) from rfl, List.suffix_cons_iff] at h
    rcases h with rfl | h
    · exact Or.inr ⟨c :: a, by simp, List.suffix_refl _⟩
    · rcases ih h with h2 | ⟨s', rfl, hs'⟩
      · exact Or.inl h2
      · exact Or.inr ⟨s', rfl, hs'.trans (List.suffix_cons c a)⟩

/-! ## `replaceFirst` -/

theorem replaceFirst_hit (pat rep r : Chars) :
    replaceFirst pat rep (pat ++ r) = rep ++ r := by
  match pat with
  | [] =>
    match r with
    | [] => simp [replaceFirst]
    | c :: t => simp [replaceFirst, List.isPrefixOf]
  | p :: ps =>
    show replaceFirst (p :: ps) rep (p :: (ps ++ r)) = rep ++ r
    rw [replaceFirst, if_pos]
    · rw [show p :: (ps ++ r) = (p :: ps) ++ r from rfl, List.drop_left]
    · rw [ List.isPrefixOf_iff_prefix]
      rw [show p :: (ps ++ r) = (p :: ps) ++ r from rfl]
      exact List.prefix_append _ _

theorem replaceFirst_skip : ∀ (a b pat rep : Chars),
    (∀ s, s <:+ a → s ≠ [] → ¬ pat <+: (s ++ b)) →
    replaceFirst pat rep (a ++ b) = a ++ replaceFirst pat rep b
  | [], b, pat, rep, _ => by simp
  | c :: a, b, pat, rep, h => by
    have hnp : ¬ pat <+: (c :: a) ++ b :=
      h (c :: a) (List.suffix_refl _) (by simp)
    have hbool : ¬ (pat.isPrefixOf (c :: (a ++ b)) = true) := by
      rw [ List.isPrefixOf_iff_prefix]
      exact hnp
    show replaceFirst pat rep (c :: (a ++ b)) = c :: (a ++ replaceFirst pat rep b)
    rw [replaceFirst, if_neg hbool]
    rw [replaceFirst_skip a b pat rep
      (fun s hs hne => h s (hs.trans (List.suffix_cons c a)) hne)]

theorem replaceFirst_joinNl :
    ∀ (L₁ : List Chars) (target : Chars) (L₂ : List Chars) (pat rep : Chars),
    pat ≠ [] → '\n' ∉ pat →
    (∀ l ∈ L₁, ¬ pat <:+: l) →
    pat <+: target →
    replaceFirst pat rep (joinNl (L₁ ++ target :: L₂)) =
      joinNl (L₁ ++ (rep ++ target.drop pat.length) :: L₂)
  | [], target, L₂, pat, rep, _, _, _, ht => by
    obtain ⟨q, rfl⟩ := ht
    show replaceFirst pat rep ((pat ++ q) ++ nlJoin L₂) = (rep ++ (pat ++ q).drop pat.length) ++ nlJoin L₂
    rw [List.drop_left, show (pat ++ q) ++ nlJoin L₂ = pat ++ (q ++ nlJoin L₂) from by simp,
      replaceFirst_hit]
    simp
  | l :: L₁, target, L₂, pat, rep, hne, hnl, h₁, ht => by
    have hl : ¬ pat <:+: l := (h₁ l (List.mem_cons_self _ _))
    have hjoin : joinNl ((l :: L₁) ++ target :: L₂) =
        (l ++ ['\n']) ++ joinNl (L₁ ++ target :: L₂) := by
      show l ++ nlJoin (L₁ ++ target :: L₂) = (l ++ ['\n']) ++ joinNl (L₁ ++ target :: L₂)
      rw [nlJoin_eq (L₁ ++ target :: L₂) (by simp)]
      simp
    have hskip : ∀ s, s <:+ (l ++ ['\n']) → s ≠ [] →
        ¬ pat <+: (s ++ joinNl (L₁ ++ target :: L₂)) := by
      intro s hs hsne hp
      rcases suffix_append_cases hs with h2 | ⟨s', rfl, hs'⟩
      · -- s is a suffix of ['\n']
        rcases List.suffix_cons_iff.mp h2 with rfl | h3
        · -- s = ['\n']
          match pat, hne with
          | [], hne0 => exact hne0 rfl
          | pc :: pt, _ =>
            rw [show ['\n'] ++ joinNl (L₁ ++ target :: L₂) =
              '\n' :: joinNl (L₁ ++ target :: L₂) from rfl, List.cons_prefix_cons] at hp
            exact hnl (hp.1 ▸ List.mem_cons_self _ _)
        · -- s suffix of []
          rw [List.suffix_nil.mp h3] at hsne
          exact hsne rfl
      · -- s = s' ++ ['\n'] with s' a suffix of l
        rw [show (s' ++ ['\n']) ++ joinNl (L₁ ++ target :: L₂) =
          s' ++ ('\n' :: joinNl (L₁ ++ target :: L₂)) from by simp] at hp
        rcases prefix_append_cases hp with h3 | ⟨q, rfl, hq⟩
        · exact hl (List.infix_iff_prefix_suffix.mpr ⟨s', h3, hs'⟩)
        · match q, hq with
          | [], _ =>
            exact hl (by simpa using (hs'.isInfix : s' <:+: l))
          | qc :: qt, hq =>
            rw [List.cons_prefix_cons] at hq
            obtain ⟨rfl, -⟩ := hq
            exact hnl (by simp)
    have hjoin2 : joinNl ((l :: L₁) ++ (rep ++ target.drop pat.length) :: L₂) =
        (l ++ ['\n']) ++ joinNl (L₁ ++ (rep ++ target.drop pat.length) :: L₂) := by
      show l ++ nlJoin (L₁ ++ (rep ++ target.drop pat.length) :: L₂) = _
      rw [nlJoin_eq (L₁ ++ (rep ++ target.drop pat.length) :: L₂) (by simp)]
      simp
    rw [hjoin, replaceFirst_skip _ _ _ _ hskip,
      replaceFirst_joinNl L₁ target L₂ pat rep hne hnl
        (fun x hx => h₁ x (List.mem_cons_of_mem _ hx)) ht, hjoin2]

/-! ## Structure of the step tags -/

theorem pendingTag_eq_cons (n : Nat) : pendingTag n =
    '-' :: ((' ' :: '[' :: ' ' :: ']' :: ' ' :: 'S' :: 't' :: 'e' :: 'p' :: ' ' :: []) ++
      (natChars n ++ [':'])) := by
  simp [pendingTag, stepHead]

theorem doneTag_eq_cons (n : Nat) : doneTag n =
    '-' :: ((' ' :: '[' :: 'x' :: ']' :: ' ' :: 'S' :: 't' :: 'e' :: 'p' :: ' ' :: []) ++
      (natChars n ++ [':'])) := by
  simp [doneTag, stepHead]

theorem pendingTag_ne_nil (n : Nat) : pendingTag n ≠ [] := by
  rw [pendingTag_eq_cons]; simp

theorem nl_not_mem_tagTail (mark : Char) (hmark : mark ≠ '\n') (n : Nat) :
    '\n' ∉ ((' ' :: '[' :: mark :: ']' :: ' ' :: 'S' :: 't' :: 'e' :: 'p' :: ' ' :: []) ++
      (natChars n ++ [':'])) := by
  intro h
  rcases List.mem_append.mp h with h1 | h2
  · simp only [List.mem_cons, List.not_mem_nil, or_false] at h1
    rcases h1 with h | h | h | h | h | h | h | h | h | h <;>
      first
      | (exact absurd h.symm (by decide))
      | (exact hmark h.symm)
  · rcases List.mem_append.mp h2 with h3 | h4
    · exact absurd rfl (isDigit_ne_nl (natChars_digits n _ h3))
    · simp only [List.mem_singleton] at h4
      exact absurd h4.symm (by decide)

theorem nl_not_mem_pendingTag (n : Nat) : '\n' ∉ pendingTag n := by
  rw [pendingTag_eq_cons]
  intro h
  rcases List.mem_cons.mp h with h1 | h2
  · exact absurd h1.symm (by decide)
  · exact nl_not_mem_tagTail ' ' (by decide) n h2

theorem nl_not_mem_doneTag (n : Nat) : '\n' ∉ doneTag n := by
  rw [doneTag_eq_cons]
  intro h
  rcases List.mem_cons.mp h with h1 | h2
  · exact absurd h1.symm (by decide)
  · exact nl_not_mem_tagTail 'x' (by decide) n h2

theorem dash_not_mem_tagTail (mark : Char) (hmark : mark ≠ '-') (n : Nat) :
    '-' ∉ ((' ' :: '[' :: mark :: ']' :: ' ' :: 'S' :: 't' :: 'e' :: 'p' :: ' ' :: []) ++
      (natChars n ++ [':'])) := by
  intro h
  rcases List.mem_append.mp h with h1 | h2
  · simp only [List.mem_cons, List.not_mem_nil, or_false] at h1
    rcases h1 with h | h | h | h | h | h | h | h | h | h <;>
      first
      | (exact absurd h.symm (by decide))
      | (exact hmark h.symm)
  · rcases List.mem_append.mp h2 with h3 | h4
    · exact absurd rfl (isDigit_ne_dash (natChars_digits n _ h3))
    · simp only [List.mem_singleton] at h4
      exact absurd h4.symm (by decide)

/-- The pending search string is not a prefix of a checked line: the `[ ]`
versus `[x]` mark differs at the fourth character. -/
theorem pending_not_prefix_of_doneLine (n m : Nat) (r : Chars) :
    ¬ pendingTag n <+: (doneTag m ++ r) := by
  intro h
  rw [pendingTag_eq_cons, doneTag_eq_cons] at h
  simp only [List.cons_append, List.append_assoc, List.cons_prefix_cons] at h
  exact absurd h.2.2.2.1 (by decide)

/-- No occurrence of the pending search string anywhere in a checked line
whose text avoids it. -/
theorem noOcc_pending_doneLine (n m : Nat) (t : Chars)
    (ht : ¬ pendingTag n <:+: t) : ¬ pendingTag n <:+: (doneTag m ++ ' ' :: t) := by
  intro hocc
  rw [List.infix_iff_prefix_suffix] at hocc
  obtain ⟨s, hps, hss⟩ := hocc
  rcases suffix_append_cases hss with h2 | ⟨s', rfl, hs'⟩
  · -- the occurrence lies within the space-plus-text region
    rcases List.suffix_cons_iff.mp h2 with rfl | h3
    · rw [pendingTag_eq_cons, List.cons_prefix_cons] at hps
      exact absurd hps.1 (by decide)
    · exact ht (List.infix_iff_prefix_suffix.mpr ⟨s, hps, h3⟩)
  · -- the occurrence starts inside the done tag
    match s', hs' with
    | [], _ =>
      rw [List.nil_append] at hps
      rw [pendingTag_eq_cons, List.cons_prefix_cons] at hps
      exact absurd hps.1 (by decide)
    | c :: s'', hs' =>
      have hc : c = '-' := by
        rw [pendingTag_eq_cons, show (c :: s'') ++ ' ' :: t = c :: (s'' ++ ' ' :: t) from rfl,
          List.cons_prefix_cons] at hps
        exact hps.1.symm
      subst hc
      rw [doneTag_eq_cons] at hs'
      rcases List.suffix_cons_iff.mp hs' with heq | h3
      · -- the occurrence starts at the head of the line
        have : pendingTag n <+: doneTag m ++ ' ' :: t := by
          rw [doneTag_eq_cons, ← heq]
          exact hps
        exact pending_not_prefix_of_doneLine n m (' ' :: t) this
      · -- a dash strictly inside the tag tail: impossible
        exact dash_not_mem_tagTail 'x' (by decide) m
          (h3.subset (List.mem_cons_self _ _))

/-! ## Rendered documents: per-line facts -/

theorem noTagOcc_spec {k : Nat} {l : Chars} (h : noTagOcc k l = true)
    {j : Nat} (h1 : 1 ≤ j) (h2 : j ≤ k) : ¬ pendingTag j <:+: l := by
  intro hocc
  have hmem : j ∈ List.range' 1 k := List.mem_range'_1.mpr ⟨h1, by omega⟩
  have := List.all_eq_true.mp h j hmem
  rw [(containsSub_iff _ _).mpr hocc] at this
  simp at this

theorem no_nl_of_regexDot {t : Chars} (h : t.all isRegexDot = true) : '\n' ∉ t := by
  intro hm
  have := List.all_eq_true.mp h _ hm
  simp [isRegexDot] at this

theorem goodText_parts {k : Nat} {t : Chars} (h : goodText k t = true) :
    t ≠ [] ∧ t.all isRegexDot = true ∧ noTagOcc k t = true := by
  simp only [goodText, Bool.and_eq_true, Bool.not_eq_true'] at h
  obtain ⟨⟨h1, h2⟩, h3⟩ := h
  refine ⟨?_, h2, h3⟩
  intro hnil
  subst hnil
  simp at h1

theorem otherLine_parts {k : Nat} {l : Chars} (h : otherLine k l = true) :
    matchStep ' ' l = none ∧ matchStep 'x' l = none ∧ '\n' ∉ l ∧ noTagOcc k l = true := by
  simp only [otherLine, Bool.and_eq_true, Option.isNone_iff_eq_none,
    decide_eq_true_eq] at h
  exact ⟨h.1.1.1, h.1.1.2, h.1.2, h.2⟩

theorem renderEntry_no_nl (k : Nat) (done : Nat → Bool) (e : PlanEntry)
    (he : entryOk k e = true) : '\n' ∉ renderEntry done e := by
  match e with
  | .other l => exact (otherLine_parts he).2.2.1
  | .step n t =>
    obtain ⟨-, hdot, -⟩ := goodText_parts he
    simp only [renderEntry]
    intro hm
    rcases List.mem_append.mp hm with h1 | h2
    · by_cases hd : done n
      · rw [if_pos hd] at h1
        exact nl_not_mem_doneTag n h1
      · rw [if_neg hd] at h1
        exact nl_not_mem_pendingTag n h1
    · rcases List.mem_cons.mp h2 with h3 | h4
      · exact absurd h3.symm (by decide)
      · exact no_nl_of_regexDot hdot h4

theorem doneLine_assoc (n : Nat) (t : Chars) :
    doneTag n ++ ' ' :: t = stepHead 'x' ++ (natChars n ++ ':' :: ' ' :: t) := by
  simp [doneTag]

theorem pendingLine_assoc (n : Nat) (t : Chars) :
    pendingTag n ++ ' ' :: t = stepHead ' ' ++ (natChars n ++ ':' :: ' ' :: t) := by
  simp [pendingTag]

theorem matchStep_renderEntry_pending (k : Nat) (done : Nat → Bool) (e : PlanEntry)
    (he : entryOk k e = true) :
    matchStep ' ' (renderEntry done e) = pendingProject done e := by
  match e with
  | .other l => exact (otherLine_parts he).1
  | .step n t =>
    obtain ⟨htne, hdot, -⟩ := goodText_parts he
    by_cases hd : done n
    · simp only [renderEntry, pendingProject, if_pos hd]
      rw [doneLine_assoc, matchStep_cross (by decide)]
    · simp only [renderEntry, pendingProject, if_neg hd]
      rw [pendingLine_assoc, matchStep_hit ' ' n t htne hdot]

theorem matchStep_renderEntry_checked (k : Nat) (done : Nat → Bool) (e : PlanEntry)
    (he : entryOk k e = true) :
    matchStep 'x' (renderEntry done e) = checkedProject done e := by
  match e with
  | .other l => exact (otherLine_parts he).2.1
  | .step n t =>
    obtain ⟨htne, hdot, -⟩ := goodText_parts he
    by_cases hd : done n
    · simp only [renderEntry, checkedProject, if_pos hd]
      rw [doneLine_assoc, matchStep_hit 'x' n t htne hdot]
    · simp only [renderEntry, checkedProject, if_neg hd]
      rw [pendingLine_assoc, matchStep_cross (by decide)]

/-! ## Generic list decompositions -/

theorem filterMap_eq_append_cons {α β : Type} (f : α → Option β) :
    ∀ (es : List α) (L₁ : List β) (x : β) (L₂ : List β),
      es.filterMap f = L₁ ++ x :: L₂ →
      ∃ es₁ e es₂, es = es₁ ++ e :: es₂ ∧ f e = some x ∧
        es₁.filterMap f = L₁ ∧ es₂.filterMap f = L₂
  | [], L₁, x, L₂, h => by
    rw [List.filterMap_nil] at h
    exact absurd h.symm (by simp)
  | a :: es, L₁, x, L₂, h => by
    cases hfa : f a with
    | none =>
      rw [List.filterMap_cons_none hfa] at h
      obtain ⟨es₁, e, es₂, rfl, he, h1, h2⟩ :=
        filterMap_eq_append_cons f es L₁ x L₂ h
      exact ⟨a :: es₁, e, es₂, rfl, he, by rw [List.filterMap_cons_none hfa, h1], h2⟩
    | some b =>
      rw [List.filterMap_cons_some hfa] at h
      match L₁, h with
      | [], h =>
        obtain ⟨rfl, h2⟩ : b = x ∧ es.filterMap f = L₂ := by
          have := List.cons.injEq b (es.filterMap f) x L₂ ▸ h
          exact ⟨List.head_eq_of_cons_eq h, List.tail_eq_of_cons_eq h⟩
        exact ⟨[], a, es, rfl, hfa, rfl, h2⟩
      | c :: L₁, h =>
        have hb : b = c := List.head_eq_of_cons_eq h
        have ht : es.filterMap f = L₁ ++ x :: L₂ := List.tail_eq_of_cons_eq h
        obtain ⟨es₁, e, es₂, rfl, he, h1, h2⟩ :=
          filterMap_eq_append_cons f es L₁ x L₂ ht
        exact ⟨a :: es₁, e, es₂, rfl, he,
          by rw [List.filterMap_cons_some hfa, h1, hb], h2⟩

theorem range'_split (s m n : Nat) :
    List.range' s (m + n) = List.range' s m ++ List.range' (s + m) n := by
  have h := List.range'_append s m n 1
  simp only [one_mul] at h
  rw [Nat.add_comm m n]
  exact h.symm

/-! ## Rendering and marking -/

theorem renderDoc_congr (d₁ d₂ : Nat → Bool) (es : List PlanEntry)
    (h : ∀ n t, PlanEntry.step n t ∈ es → d₁ n = d₂ n) :
    renderDoc d₁ es = renderDoc d₂ es := by
  unfold renderDoc
  congr 1
  apply List.map_congr_left
  intro e he
  match e with
  | .other l => rfl
  | .step n t => simp [renderEntry, h n t he]

theorem doneLe_true {j m : Nat} (h : m ≤ j) : doneLe j m = true := by
  simp [doneLe, h]

theorem doneLe_false {j m : Nat} (h : ¬ m ≤ j) : doneLe j m = false := by
  simp [doneLe, h]

theorem mark_step (k j : Nat) (es : List PlanEntry) (hwf : WellFormedPlan k es)
    (hj : j < k) :
    markStepDone (renderDoc (doneLe j) es) (j + 1) = renderDoc (doneLe (j + 1)) es := by
  obtain ⟨-, hsteps, hok⟩ := hwf
  have hsplit : List.range' 1 k =
      List.range' 1 j ++ (j + 1) :: List.range' (j + 2) (k - j - 1) := by
    obtain ⟨d, rfl⟩ : ∃ d, k = j + (d + 1) := ⟨k - j - 1, by omega⟩
    rw [show j + (d + 1) - j - 1 = d from by omega]
    rw [range'_split 1 j (d + 1)]
    rw [show (1 : Nat) + j = j + 1 from by omega, List.range'_succ]
  obtain ⟨es₁, e, es₂, rfl, hfe, hfm₁, hfm₂⟩ :=
    filterMap_eq_append_cons entryStep? es (List.range' 1 j) (j + 1)
      (List.range' (j + 2) (k - j - 1)) (hsteps.trans hsplit)
  obtain ⟨t, rfl⟩ : ∃ t, e = PlanEntry.step (j + 1) t := by
    match e, hfe with
    | .step n t, hfe =>
      exact ⟨t, by rw [show n = j + 1 from Option.some.inj hfe]⟩
    | .other l, hfe => exact absurd hfe (by simp [entryStep?])
  have hok₁ : ∀ e ∈ es₁, entryOk k e = true := fun e he =>
    hok e (List.mem_append.mpr (Or.inl he))
  have hokt : entryOk k (PlanEntry.step (j + 1) t) = true :=
    hok _ (List.mem_append.mpr (Or.inr (List.mem_cons_self _ _)))
  obtain ⟨htne, hdot, htag⟩ := goodText_parts hokt
  have hrender : ∀ done : Nat → Bool,
      renderDoc done (es₁ ++ PlanEntry.step (j + 1) t :: es₂) =
        joinNl (es₁.map (renderEntry done) ++
          renderEntry done (PlanEntry.step (j + 1) t) :: es₂.map (renderEntry done)) := by
    intro done
    unfold renderDoc
    rw [List.map_append, List.map_cons]
  have hpendLine : renderEntry (doneLe j) (PlanEntry.step (j + 1) t) =
      pendingTag (j + 1) ++ ' ' :: t := by
    simp [renderEntry, doneLe_false (by omega : ¬ j + 1 ≤ j)]
  have hnoocc : ∀ l ∈ es₁.map (renderEntry (doneLe j)), ¬ pendingTag (j + 1) <:+: l := by
    intro l hl
    obtain ⟨e', he'mem, rfl⟩ := List.mem_map.mp hl
    match e' with
    | .other ln =>
      exact noTagOcc_spec (otherLine_parts (hok₁ _ he'mem)).2.2.2 (by omega) (by omega)
    | .step m t' =>
      have hmmem : m ∈ es₁.filterMap entryStep? :=
        List.mem_filterMap.mpr ⟨PlanEntry.step m t', he'mem, rfl⟩
      rw [hfm₁] at hmmem
      have hmle : m ≤ j := by
        have := List.mem_range'_1.mp hmmem
        omega
      have : renderEntry (doneLe j) (PlanEntry.step m t') = doneTag m ++ ' ' :: t' := by
        simp only [renderEntry, doneLe_true hmle, if_true]
      rw [this]
      exact noOcc_pending_doneLine _ _ _
        (noTagOcc_spec (goodText_parts (hok₁ _ he'mem)).2.2 (by omega) (by omega))
  unfold markStepDone
  rw [hrender, hrender, hpendLine]
  rw [replaceFirst_joinNl _ _ _ _ _ (pendingTag_ne_nil _) (nl_not_mem_pendingTag _)
    hnoocc (List.prefix_append _ _)]
  rw [List.drop_left]
  have htarget : renderEntry (doneLe (j + 1)) (PlanEntry.step (j + 1) t) =
      doneTag (j + 1) ++ ' ' :: t := by
    simp [renderEntry, doneLe_true (le_refl (j + 1))]
  rw [htarget]
  congr 1
  congr 1
  · apply List.map_congr_left
    intro e' he'mem
    match e' with
    | .other ln => rfl
    | .step m t' =>
      have hmmem : m ∈ es₁.filterMap entryStep? :=
        List.mem_filterMap.mpr ⟨PlanEntry.step m t', he'mem, rfl⟩
      rw [hfm₁] at hmmem
      have hmle : m ≤ j := by
        have := List.mem_range'_1.mp hmmem
        omega
      simp only [renderEntry, doneLe_true hmle, doneLe_true (by omega : m ≤ j + 1)]
  · congr 1
    apply List.map_congr_left
    intro e' he'mem
    match e' with
    | .other ln => rfl
    | .step m t' =>
      have hmmem : m ∈ es₂.filterMap entryStep? :=
        List.mem_filterMap.mpr ⟨PlanEntry.step m t', he'mem, rfl⟩
      rw [hfm₂] at hmmem
      have hmge : j + 2 ≤ m := by
        have := List.mem_range'_1.mp hmmem
        omega
      simp only [renderEntry, doneLe_false (by omega : ¬ m ≤ j),
        doneLe_false (by omega : ¬ m ≤ j + 1)]

theorem fold_mark (k : Nat) (es : List PlanEntry) (hwf : WellFormedPlan k es) :
    ∀ (d j : Nat), j + d = k →
      (List.range' (j + 1) d).foldl markStepDone (renderDoc (doneLe j) es) =
        renderDoc (doneLe k) es
  | 0, j, h => by
    rw [show j = k from by omega]
    rfl
  | d + 1, j, h => by
    rw [List.range'_succ, List.foldl_cons, mark_step k j es hwf (by omega)]
    exact fold_mark k es hwf d (j + 1) (by omega)

/-! ## Parsing a rendered document -/

theorem parse_renderDoc_core (mark : Char) (k : Nat) (done : Nat → Bool)
    (es : List PlanEntry) (hne : es ≠ [])
    (hok : ∀ e ∈ es, entryOk k e = true)
    (f : PlanEntry → Option (Nat × Chars))
    (hf : ∀ e ∈ es, matchStep mark (renderEntry done e) = f e) :
    (splitOnNl (renderDoc done es)).filterMap (matchStep mark) = es.filterMap f := by
  unfold renderDoc
  rw [splitOnNl_joinNl _ (by simpa using hne)
    (by
      intro l hl
      obtain ⟨e, he, rfl⟩ := List.mem_map.mp hl
      exact renderEntry_no_nl k done e (hok e he))]
  rw [List.filterMap_map]
  apply List.filterMap_congr
  intro e he
  exact hf e he

theorem parsePlanSteps_renderDoc (k : Nat) (done : Nat → Bool)
    (es : List PlanEntry) (hne : es ≠ [])
    (hok : ∀ e ∈ es, entryOk k e = true) :
    parsePlanSteps (renderDoc done es) = es.filterMap (pendingProject done) := by
  unfold parsePlanSteps
  exact parse_renderDoc_core ' ' k done es hne hok _
    (fun e he => matchStep_renderEntry_pending k done e (hok e he))

theorem parseCheckedSteps_renderDoc (k : Nat) (done : Nat → Bool)
    (es : List PlanEntry) (hne : es ≠ [])
    (hok : ∀ e ∈ es, entryOk k e = true) :
    parseCheckedSteps (renderDoc done es) = es.filterMap (checkedProject done) := by
  unfold parseCheckedSteps
  exact parse_renderDoc_core 'x' k done es hne hok _
    (fun e he => matchStep_renderEntry_checked k done e (hok e he))

/-! ## C7: the parse/mark round trip -/

/-- Claim C7: on a document whose pending steps are exactly `1..k`,
sequentially applying the textual mark-done mutation for step numbers
`1..k` empties the pending parse and makes the done parse return exactly
the original pending steps, in the original order with the original
(trimmed) texts; the original pending parse indeed lists steps `1..k`. -/
theorem claim_C7_roundtrip (k : Nat) (es : List PlanEntry)
    (hwf : WellFormedPlan k es) :
    parsePlanSteps
        ((List.range' 1 k).foldl markStepDone (renderDoc (fun _ => false) es)) = [] ∧
    parseCheckedSteps
        ((List.range' 1 k).foldl markStepDone (renderDoc (fun _ => false) es)) =
      parsePlanSteps (renderDoc (fun _ => false) es) ∧
    (parsePlanSteps (renderDoc (fun _ => false) es)).map Prod.fst =
      List.range' 1 k := by
  obtain ⟨hne, hsteps, hok⟩ := hwf
  have hstepmem : ∀ n t, PlanEntry.step n t ∈ es → 1 ≤ n ∧ n ≤ k := by
    intro n t hmem
    have : n ∈ es.filterMap entryStep? :=
      List.mem_filterMap.mpr ⟨PlanEntry.step n t, hmem, rfl⟩
    rw [hsteps] at this
    have := List.mem_range'_1.mp this
    omega
  have hinit : renderDoc (fun _ => false) es = renderDoc (doneLe 0) es := by
    apply renderDoc_congr
    intro n t hmem
    have := (hstepmem n t hmem).1
    rw [doneLe_false (by omega)]
  have hfold : (List.range' 1 k).foldl markStepDone (renderDoc (fun _ => false) es) =
      renderDoc (doneLe k) es := by
    rw [hinit]
    exact fold_mark k es ⟨hne, hsteps, hok⟩ k 0 (by omega)
  refine ⟨?_, ?_, ?_⟩
  · rw [hfold, parsePlanSteps_renderDoc k (doneLe k) es hne hok]
    rw [List.filterMap_eq_nil_iff]
    intro e he
    match e with
    | .other l => rfl
    | .step n t =>
      have := (hstepmem n t he).2
      simp [pendingProject, doneLe_true this]
  · rw [hfold, parseCheckedSteps_renderDoc k (doneLe k) es hne hok, hinit,
      parsePlanSteps_renderDoc k (doneLe 0) es hne hok]
    apply List.filterMap_congr
    intro e he
    match e with
    | .other l => rfl
    | .step n t =>
      obtain ⟨h1, h2⟩ := hstepmem n t he
      simp [pendingProject, checkedProject, doneLe_true h2,
        doneLe_false (by omega : ¬ n ≤ 0)]
  · rw [hinit, parsePlanSteps_renderDoc k (doneLe 0) es hne hok,
      List.map_filterMap, ← hsteps]
    apply List.filterMap_congr
    intro e he
    match e with
    | .other l => rfl
    | .step n t =>
      have := (hstepmem n t he).1
      simp [pendingProject, entryStep?, doneLe_false (by omega : ¬ n ≤ 0)]

/-- Witness for C7 on the concrete three-step plan document. -/
theorem claim_C7_witness :
    WellFormedPlan 3 fixEntries ∧
    (parsePlanSteps
        ((List.range' 1 3).foldl markStepDone (renderDoc (fun _ => false) fixEntries)) = [] ∧
     parseCheckedSteps
        ((List.range' 1 3).foldl markStepDone (renderDoc (fun _ => false) fixEntries)) =
       parsePlanSteps (renderDoc (fun _ => false) fixEntries) ∧
     (parsePlanSteps (renderDoc (fun _ => false) fixEntries)).map Prod.fst =
       List.range' 1 3) :=
  ⟨⟨by decide, by decide, by decide⟩,
   claim_C7_roundtrip 3 fixEntries ⟨by decide, by decide, by decide⟩⟩

/-! ## The implementation loop under always-committing outcomes -/

theorem implLoop_all_ok (sid pc rp : String) (co : Nat → CommitOutcome)
    (hco : ∀ i, co i = CommitOutcome.ok) (total : Nat) :
    ∀ (steps : List (Nat × Chars)) (i : Nat) (body : Chars),
      (implLoop sid pc rp co total steps i body).2.2 = none ∧
      ((implLoop sid pc rp co total steps i body).2.1).filterMap commitMessageOf =
        steps.map (fun s => stepLabel s.1 s.2) ∧
      ((implLoop sid pc rp co total steps i body).2.1).filterMap prBodyOf = []
  | [], i, body => by simp [implLoop]
  | (n, text) :: rest, i, body => by
    have ih := implLoop_all_ok sid pc rp co hco total rest (i + 1) (markStepDone body n)
    rcases hres : implLoop sid pc rp co total rest (i + 1) (markStepDone body n)
      with ⟨bodyF, evsF, errF⟩
    rw [hres] at ih
    rw [implLoop, hco i]
    simp only [hres]
    refine ⟨ih.1, ?_, ?_⟩
    · simp [commitMessageOf, ih.2.1]
    · simp [prBodyOf, ih.2.2]

/-- Amended claim C2: re-running the Implementation phase invokes the agent
exactly for the pending steps, in document order, and the pull-request body
carries a summary built from the pending steps' texts only (the done steps'
texts are used only when no pending step remains). -/
theorem claim_C2_amended (db : IssueDb) (issueId orgId : String) (env : ImplEnv)
    (r : IssueRecord) (sid pc : String)
    (h1 : getIssue db issueId = some r)
    (hs : r.agentSessionId = some sid)
    (hp : r.planCommentId = some pc)
    (hco : ∀ i, env.commitOutcome i = CommitOutcome.ok)
    (hne : parsePlanSteps env.commentBody ≠ []) :
    (runImplementationJob db issueId orgId env).error = none ∧
    ((runImplementationJob db issueId orgId env).trace).filterMap commitMessageOf =
      (parsePlanSteps env.commentBody).map (fun s => stepLabel s.1 s.2) ∧
    ((runImplementationJob db issueId orgId env).trace).filterMap prBodyOf =
      [prBodyText env.issue.identifier env.issue.url env.issue.description
        (joinNl ((parsePlanSteps env.commentBody).map (fun s => litDashSpace ++ s.2)))] := by
  obtain ⟨s0, ss, hsteps⟩ := List.exists_cons_of_ne_nil hne
  obtain ⟨n0, t0⟩ := s0
  have hifsome : (if env.branchWasCreated then
      some (tplFreshBranchHead ++ (litBranchHead ++ charsToLower env.issue.identifier) ++
        tplFreshBranchMid ++ (env.repoWebUrl ++ litTreeSeg ++
          (litBranchHead ++ charsToLower env.issue.identifier)) ++ tplFreshBranchTail)
    else
      match parsePlanSteps env.commentBody with
      | (n, _) :: _ =>
        some (tplResumeBranchHead ++ (litBranchHead ++ charsToLower env.issue.identifier) ++
          tplFreshBranchMid ++ (env.repoWebUrl ++ litTreeSeg ++
            (litBranchHead ++ charsToLower env.issue.identifier)) ++
          tplResumeBranchMid ++ natChars n ++ tplResumeBranchTail)
      | [] => none).isSome = true := by
    rw [hsteps]
    cases env.branchWasCreated <;> simp
  rcases hloop : implLoop sid pc env.repoPath env.commitOutcome
      ((n0, t0) :: ss).length ((n0, t0) :: ss) 0 env.commentBody
    with ⟨bodyF, evsF, errF⟩
  have hl := implLoop_all_ok sid pc env.repoPath env.commitOutcome hco
    ((n0, t0) :: ss).length ((n0, t0) :: ss) 0 env.commentBody
  rw [hloop] at hl
  obtain ⟨herr, hcm, hpb⟩ := hl
  subst herr
  unfold runImplementationJob
  rw [h1]
  simp only [hs, hp]
  rw [hsteps]
  simp only [List.isEmpty_cons, Bool.false_and, Bool.false_eq_true, if_false]
  obtain ⟨msg, hmsg⟩ := Option.isSome_iff_exists.mp hifsome
  rw [hsteps] at hmsg
  rw [hmsg, hloop]
  simp only [List.length_cons]
  refine ⟨by trivial, ?_, ?_⟩
  · simp [commitMessageOf, List.filterMap_append, hcm]
  · simp [prBodyOf, List.filterMap_append, hpb]

/-- Witness for the amended C2 on the mixed plan document. -/
theorem claim_C2_amended_witness :
    parsePlanSteps fixPlanDocMixed ≠ [] ∧
    ((runImplementationJob fixDbInProgress fixIssueId fixOrgId fixImplEnv).error = none ∧
     ((runImplementationJob fixDbInProgress fixIssueId fixOrgId
        fixImplEnv).trace).filterMap commitMessageOf =
       (parsePlanSteps fixPlanDocMixed).map (fun s => stepLabel s.1 s.2) ∧
     ((runImplementationJob fixDbInProgress fixIssueId fixOrgId
        fixImplEnv).trace).filterMap prBodyOf =
       [prBodyText fixImplEnv.issue.identifier fixImplEnv.issue.url
         fixImplEnv.issue.description
         (joinNl ((parsePlanSteps fixPlanDocMixed).map
           (fun s => litDashSpace ++ s.2)))]) :=
  ⟨by decide,
   claim_C2_amended fixDbInProgress fixIssueId fixOrgId fixImplEnv
     fixRecordInProgress "sess1" "cmt1" (by decide) (by decide) (by decide)
     (fun _ => rfl) (by decide)⟩

end Ralfus

